import Mathlib

/-!
# go-firmata: codec, command encoder and response router

A shallow embedding of the Go package `firmata` (files `util.go`, `client.go`).

* Bytes (`uint8`) are natural numbers below 256; every place where Go truncates
  to eight bits carries an explicit `% 256`.
* `int` is the 64-bit signed integer, embedded in `Int`.
* Channels live in a store (`Client.chans`); a channel is the sequence of values
  sent on it together with its closed flag.
* The read side of the transport is a `bufio.Reader` (`Reader`): the buffered bytes, the
  chunks the transport will still deliver, and the error it returns after them. The
  loop of `responseWatcher` runs on it with a bound on the number of passes, and it is
  shown to end when the bound exceeds the number of bytes.
* The decoders are the bodies of the goroutines, as functions of the payload received.
* The package constants (message types, SysEx command identifiers) are declared
  in a file that is not part of the sources at hand; they are the fields of
  `Consts`, and every definition that uses one takes the table as a parameter.
-/

namespace Firmata

/-! ## util.go -/

/-- The constant `SevenBitMask` of `util.go`. -/
def SevenBitMask : Nat := 0b01111111

/-- Function `TwoByteToByte(a, b)`: `(a & SevenBitMask) | ((b & SevenBitMask) << 7)`, the shift
being a `byte` shift, hence truncated to eight bits. -/
def TwoByteToByte (a b : Nat) : Nat :=
  (a &&& SevenBitMask) ||| (((b &&& SevenBitMask) <<< 7) % 256)

/-- Function `ByteToTwoByte(b)`: `(b & SevenBitMask, (b >> 7) & SevenBitMask)`. -/
def ByteToTwoByte (b : Nat) : Nat × Nat :=
  (b &&& SevenBitMask, (b >>> 7) &&& SevenBitMask)

/-- The loop shared by `TwoByteString` and `TwoByteRepresentationToByteSlice`:
walk the (even-length) slice two bytes at a time and combine each pair. -/
def combinePairs : List Nat → List Nat
  | a :: b :: rest => TwoByteToByte a b :: combinePairs rest
  | _ => []

/-- Function `TwoByteRepresentationToByteSlice(bytes)`: pad with a zero when the length is odd,
then fill `d[di] = TwoByteToByte(bytes[2*di], bytes[2*di+1])`. -/
def TwoByteRepresentationToByteSlice (bytes : List Nat) : List Nat :=
  combinePairs (if bytes.length % 2 = 1 then bytes ++ [0] else bytes)

/-- Function `TwoByteString(bytes)`: same padding and pairing; the result is the list of the
character codes that are appended to the string, one per pair. -/
def TwoByteString (bytes : List Nat) : List Nat :=
  combinePairs (if bytes.length % 2 = 1 then bytes ++ [0] else bytes)

/-- Function `ByteSliceToTwoByteRepresentation(bytes)`: for every input byte write its two
halves, least significant first. -/
def ByteSliceToTwoByteRepresentation : List Nat → List Nat
  | [] => []
  | b :: rest =>
    (ByteToTwoByte b).1 :: (ByteToTwoByte b).2 :: ByteSliceToTwoByteRepresentation rest


/-! ## Package constants -/

/-- The constants of the package that `client.go` uses but that are declared in a file
outside the sources at hand: the leading-byte message types, the fixed opcodes, the SysEx
command identifiers and the I2C mode bits. They are left abstract. -/
structure Consts where
  ProtocolVersion : Nat
  StartSysEx : Nat
  EndSysEx : Nat
  SystemReset : Nat
  SetPinMode : Nat
  SetDigitalPinValue : Nat
  ReportAnalogPin : Nat
  ReportDigitalPort : Nat
  SysExSerialDataV1 : Nat
  SysExSerialDataV2 : Nat
  SysExStringData : Nat
  SysExI2CRequest : Nat
  SysExI2CReply : Nat
  SysExI2CConfig : Nat
  SysExAnalogMappingQuery : Nat
  SysExAnalogMappingResponse : Nat
  SysExCapabilityQuery : Nat
  SysExCapabilityResponse : Nat
  SysExPinStateQuery : Nat
  SysExPinStateResponse : Nat
  SysExExtendedAnalog : Nat
  SysExReportFirmware : Nat
  SysExSamplingInterval : Nat
  I2CModeWrite : Nat
  I2CRestartTransmission : Nat

/-- A sample table, used only to run the definitions on concrete inputs: SysEx start
`0xF0` and SysEx end `0xF7` as the specification gives them, the other entries with the
values of the Firmata protocol. -/
def sampleConsts : Consts where
  ProtocolVersion := 0xF9
  StartSysEx := 0xF0
  EndSysEx := 0xF7
  SystemReset := 0xFF
  SetPinMode := 0xF4
  SetDigitalPinValue := 0xF5
  ReportAnalogPin := 0xC0
  ReportDigitalPort := 0xD0
  SysExSerialDataV1 := 0x60
  SysExSerialDataV2 := 0x67
  SysExStringData := 0x71
  SysExI2CRequest := 0x76
  SysExI2CReply := 0x77
  SysExI2CConfig := 0x78
  SysExAnalogMappingQuery := 0x69
  SysExAnalogMappingResponse := 0x6A
  SysExCapabilityQuery := 0x6B
  SysExCapabilityResponse := 0x6C
  SysExPinStateQuery := 0x6D
  SysExPinStateResponse := 0x6E
  SysExExtendedAnalog := 0x6F
  SysExReportFirmware := 0x79
  SysExSamplingInterval := 0x7A
  I2CModeWrite := 0x00
  I2CRestartTransmission := 0x40

/-! ## client.go: errors, constants, state -/

/-- An error value produced by the transport: `io.EOF` or any other one. -/
inductive BoardErr where
  | EOF
  | other (code : Nat)
  deriving DecidableEq, Repr

/-- The error values declared in `client.go`, and the errors of the transport, which
are passed on as they are. A transport error is none of the package's own values. -/
inductive Err where
  | ErrDeviceDisconnected
  | ErrUnsupportedFeature
  | ErrInvalidMessageTypeStart
  | ErrNoDataRead
  | ErrUnexpectedSysExMessageTypeReceived
  | ErrAlreadyStarted
  | ErrValueOutOfRange
  | ErrNoI2CListenerForAddress
  | board (e : BoardErr)
  deriving DecidableEq, Repr

/-- How one pass of the frame reader can end other than by going round the loop again:
with an error value that `responseWatcher` returns, with one of Go's run-time panics, or
stuck in a send on a nil channel. -/
inductive Fault where
  | error (e : Err)
  | indexOutOfRange
  | sendOnClosed
  | closeOfClosed
  | closeOfNil
  | nilMapWrite
  | blocked
  deriving DecidableEq, Repr

/-- Constant `MaxUInt8 uint8 = (1<<8 - 1) >> 1`. -/
def MaxUInt8 : Nat := ((1 <<< 8) - 1) >>> 1

/-- Constant `MaxUInt16 uint16 = (1<<16 - 1) >> 2`. -/
def MaxUInt16 : Nat := ((1 <<< 16) - 1) >>> 2

/-- A `chan []byte`: the values sent on it so far, oldest first, and whether it has been
closed. A send is recorded when it completes; the receiving side is not modelled. -/
structure Chan where
  sent : List (List Nat)
  closed : Bool
  deriving DecidableEq, Repr

/-- The `Client` struct. `board` records the argument of every `Write` call made on the
transport, oldest first. `responseChannels` and `sysExListenerChannels` are the two maps
(a missing key reads as the empty queue, respectively as nil). `i2cListeners` is `none`
while the map is nil; inside, an address is absent (`none`), or bound to a channel
reference, which may itself be nil. `chans` is the store of the channels, a channel
reference being an index into it. The cached `cr` and `amr` fields are left out. -/
structure Client where
  board : List (List Nat)
  responseChannels : Nat → List Nat
  sysExListenerChannels : Nat → Option Nat
  i2cListeners : Option (Nat → Option (Option Nat))
  started : Bool
  chans : List Chan

/-- Go's `make(chan []byte, 1)`: a new open channel on which nothing has been sent. -/
def newChan : Chan := { sent := [], closed := false }

/-- Go's `ch <- v`: panics on a closed channel; a reference outside the store does not occur
in a Go state and is treated like the nil channel, on which a send never completes. A send
on an open channel is taken at the point where it completes: this is exact for the one-shot
waiters, which have a buffer of one and get one send; on a listener channel whose buffer is
full the code waits for the receiver, which is not modelled. -/
def chanSend (chans : List Chan) (ch : Nat) (v : List Nat) : Except Fault (List Chan) :=
  match chans[ch]? with
  | none => .error .blocked
  | some x =>
    if x.closed then .error .sendOnClosed
    else .ok (chans.set ch { x with sent := x.sent ++ [v] })

/-- Go's `close(ch)`: panics on a closed channel and on the nil channel. -/
def chanClose (chans : List Chan) (ch : Nat) : Except Fault (List Chan) :=
  match chans[ch]? with
  | none => .error .closeOfNil
  | some x =>
    if x.closed then .error .closeOfClosed
    else .ok (chans.set ch { x with closed := true })

/-- Table `commandResponseMap`: the map literal has exactly three keys. -/
def commandResponseMap (K : Consts) (cmd : Nat) : Option Nat :=
  if cmd = K.SysExAnalogMappingQuery then some K.SysExAnalogMappingResponse
  else if cmd = K.SysExCapabilityQuery then some K.SysExCapabilityResponse
  else if cmd = K.SysExPinStateQuery then some K.SysExPinStateResponse
  else none

/-- Function `NewClient(board)`: the two maps that the literal initialises are empty, `i2cListeners`
is not initialised and stays nil; nothing has been written yet and no channel exists. -/
def NewClient : Client where
  board := []
  responseChannels := fun _ => []
  sysExListenerChannels := fun _ => none
  i2cListeners := none
  started := false
  chans := []

/-- Method `Client.write(payload, withinMutex)`: call `board.Write(payload)`; `werr` is what that
call returns (`none` for success). On an error return it; otherwise run `withinMutex` when
it is not nil. The closure works on the client and on the variables it captures (`σ`). -/
def write {σ : Type} (c : Client) (payload : List Nat) (werr : Option BoardErr)
    (withinMutex : Option (Client × σ → Client × σ)) (captured : σ) :
    (Client × σ) × Option Err :=
  let c1 := { c with board := c.board ++ [payload] }
  match werr with
  | some e => ((c1, captured), some (.board e))
  | none =>
    match withinMutex with
    | some f => (f (c1, captured), none)
    | none => ((c1, captured), none)

/-- Method `Client.SendSysEx(cmd, payload...)`: returns the client afterwards, the channel
`data` (nil is `none`) and the error. -/
def SendSysEx (K : Consts) (c : Client) (cmd : Nat) (payload : List Nat)
    (werr : Option BoardErr) : Client × Option Nat × Option Err :=
  let within : Client × Option Nat → Client × Option Nat := fun st =>
    match commandResponseMap K cmd with
    | some resp =>
      let data := st.1.chans.length
      let c1 := { st.1 with chans := st.1.chans ++ [newChan] }
      ({ c1 with responseChannels := fun k =>
          if k = resp then c1.responseChannels resp ++ [data] else c1.responseChannels k },
        some data)
    | none => st
  let r := write c ([K.StartSysEx % 256, cmd % 256] ++ (payload ++ [K.EndSysEx % 256]))
    werr (some within) none
  match r.2 with
  | some e => (r.1.1, none, some e)
  | none => (r.1.1, r.1.2, none)

/-- Method `Client.Start()`, the part before the reader is spawned: the double-start guard, the
`started` flag, and the firmware channel installed as the whole queue of
`SysExReportFirmware`. Returns the client, the firmware channel and the error. -/
def Start (K : Consts) (c : Client) : Client × Option Nat × Option Err :=
  if c.started then (c, none, some .ErrAlreadyStarted)
  else
    let firmChannel := c.chans.length
    ({ c with
        started := true
        chans := c.chans ++ [newChan]
        responseChannels := fun k =>
          if k = K.SysExReportFirmware then [firmChannel] else c.responseChannels k },
      some firmChannel, none)

/-- The `case StartSysEx` arm of `responseWatcher`, from the point where
`reader.ReadBytes(EndSysEx)` has returned `data` without error. The result is the client
after the pass and, when the pass ends the reader, how. -/
def handleSysEx (K : Consts) (c : Client) (data : List Nat) : Client × Option Fault :=
  match data with
  | [] => (c, some (.error .ErrNoDataRead))
  | cmd :: _ =>
    if cmd = K.SysExSerialDataV1 ∨ cmd = K.SysExSerialDataV2 then
      (c, some (.error .ErrUnsupportedFeature))
    else if cmd = K.SysExI2CReply then
      match data[1]?, data[2]? with
      | some a, some b =>
        let address := TwoByteToByte a b
        match c.i2cListeners.bind (fun m => m address) with
        | none => (c, some (.error .ErrNoI2CListenerForAddress))
        | some none => (c, some .blocked)
        | some (some ch) =>
          match chanSend c.chans ch (TwoByteRepresentationToByteSlice (data.drop 3)) with
          | .ok chans => ({ c with chans := chans }, none)
          | .error f => (c, some f)
      | _, _ => (c, some .indexOutOfRange)
    else
      match c.sysExListenerChannels cmd with
      | some ch =>
        match chanSend c.chans ch (data.drop 1) with
        | .ok chans => ({ c with chans := chans }, none)
        | .error f => (c, some f)
      | none =>
        match c.responseChannels cmd with
        | resp :: rest =>
          let c1 := { c with responseChannels := fun k =>
            if k = cmd then rest else c.responseChannels k }
          if data.length < 2 then (c1, some .indexOutOfRange)
          else
            match chanSend c1.chans resp ((data.take (data.length - 1)).drop 1) with
            | .error f => (c1, some f)
            | .ok chans1 =>
              match chanClose chans1 resp with
              | .error f => ({ c1 with chans := chans1 }, some f)
              | .ok chans2 => ({ c1 with chans := chans2 }, none)
        | [] => (c, some (.error .ErrUnexpectedSysExMessageTypeReceived))

/-- The `for` loop of `responseWatcher` over a sequence of complete SysEx frames (each
given as the bytes `ReadBytes` returned for it): the passes run in order and the first
one that ends the reader stops the loop. -/
def runFrames (K : Consts) : Client → List (List Nat) → Client × Option Fault
  | c, [] => (c, none)
  | c, data :: rest =>
    match handleSysEx K c data with
    | (c1, none) => runFrames K c1 rest
    | (c1, some f) => (c1, some f)

/-- Conversion `uint8(v)` of an `int`: the low eight bits. -/
def uint8 (v : Int) : Nat := (v % 256).toNat

/-- Method `Client.ExtendedReportAnalogPin(pin, value)`; `value >> n` is the arithmetic shift. -/
def ExtendedReportAnalogPin (K : Consts) (c : Client) (pin : Nat) (value : Int)
    (werr : Option BoardErr) : Client × Option Err :=
  if value > 0xFFFFFFFFFFFFFF then (c, some .ErrValueOutOfRange)
  else
    let r := SendSysEx K c K.SysExExtendedAnalog
      [pin, uint8 value, uint8 (value >>> 7), uint8 (value >>> 14)] werr
    match r.2.2 with
    | some e => (r.1, some e)
    | none => (r.1, none)

/-- Method `Client.SetSamplingInterval(ms)`, `ms` a `uint16`; `byte(x)` keeps the low eight bits. -/
def SetSamplingInterval (K : Consts) (c : Client) (ms : Nat) (werr : Option BoardErr) :
    Client × Option Err :=
  if ms > MaxUInt16 then (c, some .ErrValueOutOfRange)
  else
    let r := write c [K.SysExSamplingInterval % 256, ms % 256, (ms >>> 7) % 256] werr
      (none : Option (Client × Unit → Client × Unit)) ()
    (r.1.1, r.2)

/-- The struct `PinStateResponse` of `pin_state.go`. -/
structure PinStateResponse where
  Pin : Nat
  Mode : Nat
  State : Int
  deriving DecidableEq, Repr

/-- The loop `for i, b := range data[2:] { ps.State |= int(b << (i * 7)) }`: the shift is
done on the `byte` `b`, so its result is truncated to eight bits before the conversion
to `int`. -/
def pinStateLoop : List Nat → Nat → Int → Int
  | [], _, state => state
  | b :: rest, i, state =>
    pinStateLoop rest (i + 1) (Int.lor state (((b <<< (i * 7)) % 256 : Nat) : Int))

/-- The body of the goroutine of `Client.parsePinStateQuery`, as a function of the payload
`data` received from `future`. -/
def parsePinStateQuery (data : List Nat) : Except Fault PinStateResponse :=
  match data with
  | pin :: mode :: rest => .ok { Pin := pin, Mode := mode, State := pinStateLoop rest 0 0 }
  | _ => .error .indexOutOfRange

/-! ## Sub-protocol decoders -/

/-- The constant `CapabilityResponsePinDelimiter` of `capability.go`. -/
def CapabilityResponsePinDelimiter : Nat := 0x7F

/-- A `map[PinMode]uint8`: the resolution stored for a mode, if any. -/
abbrev ModeMap := Nat → Option Nat

/-- The empty map literal. -/
def ModeMap.empty : ModeMap := fun _ => none

/-- The map assignment `m[mode] = res`. -/
def ModeMap.insert (m : ModeMap) (mode res : Nat) : ModeMap :=
  fun k => if k = mode then some res else m k

/-- The loop of `Client.parseCapabilityCommand` over the bytes from position `i` on:
`pins` is `response.SupportedPinModes` and `pindex` the current pin. A delimiter appends
an empty map and moves on by one; any other byte is a mode whose resolution is the next
byte, and moving on by two; indexing past the end panics. -/
def capabilityLoop : List Nat → List ModeMap → Nat → Except Fault (List ModeMap)
  | [], pins, _ => .ok pins
  | [b], pins, pindex =>
    if b = CapabilityResponsePinDelimiter then
      capabilityLoop [] (pins ++ [ModeMap.empty]) (pindex + 1)
    else .error .indexOutOfRange
  | b :: r :: rest, pins, pindex =>
    if b = CapabilityResponsePinDelimiter then
      capabilityLoop (r :: rest) (pins ++ [ModeMap.empty]) (pindex + 1)
    else
      match pins[pindex]? with
      | none => .error .indexOutOfRange
      | some m => capabilityLoop rest (pins.set pindex (m.insert b r)) pindex

/-- The body of the goroutine of `Client.parseCapabilityCommand`, as a function of the
payload `data` received from `future`; the result is `response.SupportedPinModes`. -/
def parseCapabilityCommand (data : List Nat) : Except Fault (List ModeMap) :=
  capabilityLoop data [ModeMap.empty] 0

/-- The loop of `Client.parseAnalogMappingQuery` over the bytes from position `i` on;
`acc` is `response.PinMapping`. The position is appended as `uint8(i)`. -/
def analogMappingLoop : List Nat → Nat → List Nat → List Nat
  | [], _, acc => acc
  | b :: rest, i, acc =>
    analogMappingLoop rest (i + 1)
      (if b ≠ CapabilityResponsePinDelimiter then acc ++ [i % 256] else acc)

/-- The body of the goroutine of `Client.parseAnalogMappingQuery`, as a function of the
payload `data`; the result is `response.PinMapping`. -/
def parseAnalogMappingQuery (data : List Nat) : List Nat :=
  analogMappingLoop data 0 []

/-- The struct `FirmwareReport` as `Client.parseReportFirmware` fills it. -/
structure FirmwareReport where
  Major : Nat
  Minor : Nat
  Name : List Nat
  deriving DecidableEq, Repr

/-- The body of the goroutine of `Client.parseReportFirmware`: `data[0]`, `data[1]` and
`data[2:]`. -/
def parseReportFirmware (data : List Nat) : Except Fault FirmwareReport :=
  match data with
  | major :: minor :: rest => .ok { Major := major, Minor := minor, Name := rest }
  | _ => .error .indexOutOfRange

/-! ## Reporting toggles and listener registration -/

/-- Method `Client.SetDigitalPortReporting(port, report)`. -/
def SetDigitalPortReporting (K : Consts) (c : Client) (port : Nat) (report : Bool)
    (werr : Option BoardErr) : Client × Option Err :=
  let v : Nat := if report then 1 else 0
  let r := write c [(K.ReportDigitalPort % 256) ||| (port &&& 0xF), v] werr
    (none : Option (Client × Unit → Client × Unit)) ()
  (r.1.1, r.2)

/-- Method `Client.SetDigitalPinReporting(pin, report)`. -/
def SetDigitalPinReporting (K : Consts) (c : Client) (pin : Nat) (report : Bool)
    (werr : Option BoardErr) : Client × Option Err :=
  SetDigitalPortReporting K c (pin % 8) report werr

/-- A caller's `make(chan []byte)`: the store gets a new channel, whose reference is
returned. -/
def makeChan (c : Client) : Client × Nat :=
  ({ c with chans := c.chans ++ [newChan] }, c.chans.length)

/-- Method `Client.SetSerialMessageChannel(ch)`; `ch` is a channel reference or nil. The
result is the client afterwards, or the panic of `close`. -/
def SetSerialMessageChannel (K : Consts) (c : Client) (ch : Option Nat) :
    Except Fault Client :=
  let install (c1 : Client) : Client :=
    { c1 with sysExListenerChannels := fun k =>
        if k = K.SysExSerialDataV2 then ch else c1.sysExListenerChannels k }
  match c.sysExListenerChannels K.SysExSerialDataV2 with
  | some old =>
    match chanClose c.chans old with
    | .error f => .error f
    | .ok chans => .ok (install { c with chans := chans })
  | none => .ok (install c)

/-- Method `Client.SetI2CMessageChannel(address, ch)`. Reading a nil map gives nil;
assigning to an entry of a nil map panics. -/
def SetI2CMessageChannel (c : Client) (address : Nat) (ch : Option Nat) :
    Except Fault Client :=
  let closed : Except Fault (List Chan) :=
    match (c.i2cListeners.bind (fun m => m address)).join with
    | some old => chanClose c.chans old
    | none => .ok c.chans
  match closed with
  | .error f => .error f
  | .ok chans =>
    match c.i2cListeners with
    | none => .error .nilMapWrite
    | some m =>
      .ok { c with
        chans := chans
        i2cListeners := some (fun a => if a = address then some ch else m a) }

/-! ## The frame reader on the byte stream -/

/-- The `bufio.Reader` over the read side of the transport. `buf` holds the bytes read
from the transport and not yet consumed. `chunks` are the results of the `Read` calls the
transport will still answer successfully, each with at least one byte (its first byte and
the others); after them every `Read` fails with `final`. -/
structure Reader where
  buf : List Nat
  chunks : List (Nat × List Nat)
  final : BoardErr

/-- Function `bufio.NewReader(c.board)`: nothing is buffered yet. -/
def NewReader (chunks : List (Nat × List Nat)) (final : BoardErr) : Reader :=
  { buf := [], chunks := chunks, final := final }

/-- All the bytes the reader can still deliver, in order. -/
def Reader.pending (r : Reader) : List Nat :=
  r.buf ++ r.chunks.flatMap (fun p => p.1 :: p.2)

/-- Method `reader.ReadByte()`: the next buffered byte; on an empty buffer the next chunk
is read from the transport first, and its error is returned when there is none. -/
def Reader.ReadByte (r : Reader) : Except BoardErr (Nat × Reader) :=
  match r.buf with
  | b :: rest => .ok (b, { r with buf := rest })
  | [] =>
    match r.chunks with
    | (h, t) :: cs => .ok (h, { r with buf := t, chunks := cs })
    | [] => .error r.final

/-- Method `reader.Read(p)` with `len(p) = n`, `n` small: on an empty buffer one chunk is
read from the transport; then as many buffered bytes as fit into `p` are handed out. -/
def Reader.Read (r : Reader) (n : Nat) : Except BoardErr (List Nat × Reader) :=
  match r.buf with
  | [] =>
    match r.chunks with
    | (h, t) :: cs => .ok ((h :: t).take n, { r with buf := (h :: t).drop n, chunks := cs })
    | [] => .error r.final
  | b :: rest => .ok ((b :: rest).take n, { r with buf := (b :: rest).drop n })

/-- The bytes up to and including the first `delim`, and those after it. -/
def splitDelim (delim : Nat) : List Nat → Option (List Nat × List Nat)
  | [] => none
  | b :: rest =>
    if b = delim then some ([b], rest)
    else (splitDelim delim rest).map (fun p => (b :: p.1, p.2))

/-- The search of `reader.ReadBytes(delim)`: `acc` are the bytes collected so far, `buf`
the buffer; when the buffer has no `delim` the next chunk is read. -/
def readBytesLoop (delim : Nat) (final : BoardErr) :
    List (Nat × List Nat) → List Nat → List Nat → Except BoardErr (List Nat × Reader)
  | [], acc, buf =>
    match splitDelim delim buf with
    | some (pre, rest) => .ok (acc ++ pre, { buf := rest, chunks := [], final := final })
    | none => .error final
  | (h, t) :: cs, acc, buf =>
    match splitDelim delim buf with
    | some (pre, rest) =>
      .ok (acc ++ pre, { buf := rest, chunks := (h, t) :: cs, final := final })
    | none => readBytesLoop delim final cs (acc ++ buf) (h :: t)

/-- Method `reader.ReadBytes(delim)`: the bytes up to and including the first `delim`; the
error of the transport when it fails before a `delim` is seen. -/
def Reader.ReadBytes (r : Reader) (delim : Nat) : Except BoardErr (List Nat × Reader) :=
  readBytesLoop delim r.final r.chunks [] r.buf

/-- The `for` loop of `responseWatcher`, `fuel` bounding the number of passes; the result
is the client and the fault that ended the loop, before the deferred function runs. -/
def watchLoop (K : Consts) : Nat → Client → Reader → Option (Client × Fault)
  | 0, _, _ => none
  | fuel + 1, c, r =>
    match r.ReadByte with
    | .error e => some (c, .error (.board e))
    | .ok (b0, r1) =>
      if b0 = K.ProtocolVersion then
        match r1.Read 2 with
        | .error e => some (c, .error (.board e))
        | .ok (_, r2) => watchLoop K fuel c r2
      else if b0 = K.StartSysEx then
        match r1.ReadBytes (K.EndSysEx % 256) with
        | .error e => some (c, .error (.board e))
        | .ok (data, r2) =>
          match handleSysEx K c data with
          | (c1, some f) => some (c1, f)
          | (c1, none) => watchLoop K fuel c1 r2
      else some (c, .error .ErrInvalidMessageTypeStart)

/-- The deferred function of `responseWatcher`: an error that is `io.EOF` is replaced by
`ErrDeviceDisconnected`, anything else is left as it is. -/
def deferred (f : Fault) : Fault :=
  match f with
  | .error (.board .EOF) => .error .ErrDeviceDisconnected
  | other => other

/-- Method `Client.responseWatcher()` from the state `r` of the reader, with `fuel`
passes allowed. -/
def responseWatcherFrom (K : Consts) (fuel : Nat) (c : Client) (r : Reader) :
    Option (Client × Fault) :=
  (watchLoop K fuel c r).map (fun p => (p.1, deferred p.2))

/-- Method `Client.responseWatcher()`: every pass consumes a byte, so one pass more than
there are bytes is enough. -/
def responseWatcher (K : Consts) (c : Client) (chunks : List (Nat × List Nat))
    (final : BoardErr) : Option (Client × Fault) :=
  responseWatcherFrom K ((NewReader chunks final).pending.length + 1) c
    (NewReader chunks final)

/-! ## Reference descriptions used in the statements -/

/-- The positions (from zero) of the bytes of `data` that differ from the sentinel, in
order: what the specification calls the analog-mapping result. -/
def nonSentinelPositions (data : List Nat) : List Nat :=
  (data.enum.filter (fun p => decide (p.2 ≠ CapabilityResponsePinDelimiter))).map (fun p => p.1)

/-- The bytes of one group of a capability payload: its (mode, resolution) pairs, in
order. -/
def groupBytes : List (Nat × Nat) → List Nat
  | [] => []
  | p :: g => p.1 :: p.2 :: groupBytes g

/-- The capability payload made of the given groups, separated by single sentinel
bytes. -/
def groupsPayload : List (List (Nat × Nat)) → List Nat
  | [] => []
  | [g] => groupBytes g
  | g :: g1 :: gs => groupBytes g ++ CapabilityResponsePinDelimiter :: groupsPayload (g1 :: gs)

/-- The resolution of the last occurrence of `mode` in the group, if `mode` occurs in
it. -/
def lastResolution (g : List (Nat × Nat)) (mode : Nat) : Option Nat :=
  (g.reverse.find? (fun p => decide (p.1 = mode))).map (fun p => p.2)

/-- The map obtained from `cur` by the assignments of a group, in order. -/
def assignGroup (cur : ModeMap) (g : List (Nat × Nat)) : ModeMap :=
  g.foldl (fun m p => m.insert p.1 p.2) cur

/-! ## States of the correlation table -/

/-- The client states reachable from `NewClient` by `Start`, by `SendSysEx` calls (any
command, any payload, any outcome of the write) and by passes of the frame reader over
SysEx frames. -/
inductive Reachable (K : Consts) : Client → Prop
  | init : Reachable K NewClient
  | start {c : Client} : Reachable K c → Reachable K (Start K c).1
  | send {c : Client} (cmd : Nat) (payload : List Nat) (werr : Option BoardErr) :
      Reachable K c → Reachable K (SendSysEx K c cmd payload werr).1
  | dispatch {c : Client} (data : List Nat) :
      Reachable K c → Reachable K (handleSysEx K c data).1

/-- Invariant of the correlation table: every queued waiter is a channel of the store on
which nothing has been sent and which is open; no queue holds a waiter twice; no waiter
is in two queues; no channel has received more than one value; no persistent listener is
registered. -/
def Inv (c : Client) : Prop :=
  (∀ k, ∀ w ∈ c.responseChannels k, c.chans[w]? = some newChan) ∧
  (∀ k, (c.responseChannels k).Nodup) ∧
  (∀ k1 k2 w, w ∈ c.responseChannels k1 → w ∈ c.responseChannels k2 → k1 = k2) ∧
  (∀ (w : Nat) (ch : Chan), c.chans[w]? = some ch → ch.sent.length ≤ 1) ∧
  (∀ k, c.sysExListenerChannels k = none) ∧
  c.i2cListeners = none

/-- Every channel reference held by the client points into the store. -/
def RefsValid (c : Client) : Prop :=
  (∀ k, ∀ w ∈ c.responseChannels k, w < c.chans.length) ∧
  (∀ k w, c.sysExListenerChannels k = some w → w < c.chans.length) ∧
  (∀ m a w, c.i2cListeners = some m → m a = some (some w) → w < c.chans.length)

/-- The channels satisfying `prot` are referenced from nowhere but the queue of `resp`,
and no persistent listener is registered for `resp`. -/
def Sep (c : Client) (resp : Nat) (prot : Nat → Prop) : Prop :=
  (∀ k, k ≠ resp → ∀ w ∈ c.responseChannels k, ¬ prot w) ∧
  (∀ k w, c.sysExListenerChannels k = some w → ¬ prot w) ∧
  (∀ m a w, c.i2cListeners = some m → m a = some (some w) → ¬ prot w) ∧
  c.sysExListenerChannels resp = none

/-- The state after a one-shot delivery: the head of the queue of `cmd` is removed and the
channel `w` holds `x` with `v` appended and is closed. -/
def delivered (c : Client) (cmd w : Nat) (rest : List Nat) (x : Chan) (v : List Nat) :
    Client :=
  { c with
    responseChannels := fun k => if k = cmd then rest else c.responseChannels k
    chans := c.chans.set w { sent := x.sent ++ [v], closed := true } }

/-- The state after the head of the queue of `cmd` has been removed and nothing else
has happened. -/
def popped (c : Client) (cmd : Nat) (rest : List Nat) : Client :=
  { c with responseChannels := fun k => if k = cmd then rest else c.responseChannels k }

/-- A pending pin-state query on a new client. -/
def demoPending : Client := (SendSysEx sampleConsts NewClient 0x6D [17] none).1

/-- Two capability queries sent after it. -/
def demoQueried : Client :=
  (SendSysEx sampleConsts (SendSysEx sampleConsts demoPending 0x6B [] none).1 0x6B [] none).1

/-- The reader has passed over the pin-state reply. -/
def demoAfterPre : Client := (runFrames sampleConsts demoQueried [[0x6E, 17, 1, 0, 0xF7]]).1

/-- The reader has passed over the first capability reply, with payload `[1, 2]`. -/
def demoAfterFirst : Client :=
  (runFrames sampleConsts
    (handleSysEx sampleConsts demoAfterPre (0x6C :: ([1, 2] ++ [sampleConsts.EndSysEx % 256]))).1
    []).1

/-- The reader has passed over one capability reply right after the two queries. -/
def demoDelivered : Client := (handleSysEx sampleConsts demoQueried [0x6C, 1, 2, 0xF7]).1

/-- The client states that calls of the package can produce from `NewClient`: a caller
making a channel, `Start`, `Close`, `SendSysEx` (and with it every query and the I2C
requests), the plain writes (`SetPinMode`, `SetDigitalPinValue`, `SetAnalogPinReporting`,
`SendReset`, the reporting toggles, `SetSamplingInterval`), `ExtendedReportAnalogPin`, the
two listener registrations when they return, and the passes of the frame reader. -/
inductive ApiReachable (K : Consts) : Client → Prop
  | init : ApiReachable K NewClient
  | make {c : Client} : ApiReachable K c → ApiReachable K (makeChan c).1
  | start {c : Client} : ApiReachable K c → ApiReachable K (Start K c).1
  | close {c : Client} : ApiReachable K c → ApiReachable K { c with started := false }
  | send {c : Client} (cmd : Nat) (payload : List Nat) (werr : Option BoardErr) :
      ApiReachable K c → ApiReachable K (SendSysEx K c cmd payload werr).1
  | wrote {c : Client} (payload : List Nat) (werr : Option BoardErr) :
      ApiReachable K c →
      ApiReachable K
        (write c payload werr (none : Option (Client × Unit → Client × Unit)) ()).1.1
  | extended {c : Client} (pin : Nat) (value : Int) (werr : Option BoardErr) :
      ApiReachable K c → ApiReachable K (ExtendedReportAnalogPin K c pin value werr).1
  | serial {c c1 : Client} (ch : Option Nat) :
      ApiReachable K c → SetSerialMessageChannel K c ch = .ok c1 → ApiReachable K c1
  | i2c {c c1 : Client} (address : Nat) (ch : Option Nat) :
      ApiReachable K c → SetI2CMessageChannel c address ch = .ok c1 → ApiReachable K c1
  | dispatch {c : Client} (data : List Nat) :
      ApiReachable K c → ApiReachable K (handleSysEx K c data).1

/-- A caller has made a channel and started the client. -/
def demoStarted : Client := (Start sampleConsts (makeChan NewClient).1).1

/-! ## Codec lemmas -/

set_option maxRecDepth 100000 in
theorem combine_split_lt (b : Nat) (hb : b < 256) :
    TwoByteToByte (ByteToTwoByte b).1 (ByteToTwoByte b).2 = b := by
  revert b
  decide

theorem split_fst_le (b : Nat) : (ByteToTwoByte b).1 ≤ 0x7F := by
  show b &&& 127 ≤ 127
  exact Nat.and_le_right

theorem split_snd_le (b : Nat) : (ByteToTwoByte b).2 ≤ 0x7F := by
  show (b >>> 7) &&& 127 ≤ 127
  exact Nat.and_le_right

theorem encode_length (bs : List Nat) :
    (ByteSliceToTwoByteRepresentation bs).length = 2 * bs.length := by
  induction bs with
  | nil => rfl
  | cons b rest ih =>
    simp only [ByteSliceToTwoByteRepresentation, List.length_cons, ih]
    omega

theorem encode_le (bs : List Nat) :
    ∀ e ∈ ByteSliceToTwoByteRepresentation bs, e ≤ 0x7F := by
  induction bs with
  | nil => intro e he; cases he
  | cons b rest ih =>
    intro e he
    simp only [ByteSliceToTwoByteRepresentation, List.mem_cons] at he
    rcases he with h | h | h
    · rw [h]; exact split_fst_le b
    · rw [h]; exact split_snd_le b
    · exact ih e h

theorem combinePairs_encode (bs : List Nat) (hbs : ∀ b ∈ bs, b < 256) :
    combinePairs (ByteSliceToTwoByteRepresentation bs) = bs := by
  induction bs with
  | nil => rfl
  | cons b rest ih =>
    simp only [ByteSliceToTwoByteRepresentation, combinePairs]
    rw [combine_split_lt b (hbs b (List.mem_cons_self _ _)),
      ih (fun x hx => hbs x (List.mem_cons_of_mem _ hx))]

/-! ## Claims C1, C2 -/

/-- C1: for every byte `b` (0..255), combining the two halves produced by splitting `b`
gives `b` back: `TwoByteToByte(ByteToTwoByte(b)) == b`. -/
theorem C1_combine_split_roundtrip (b : Nat) (hb : b < 256) :
    TwoByteToByte (ByteToTwoByte b).1 (ByteToTwoByte b).2 = b :=
  combine_split_lt b hb

theorem C1_combine_split_roundtrip_witness :
    200 < 256 ∧ TwoByteToByte (ByteToTwoByte 200).1 (ByteToTwoByte 200).2 = 200 :=
  ⟨by decide, C1_combine_split_roundtrip 200 (by decide)⟩

/-- C2: for every byte sequence `bs` (the empty one included), decoding the pair stream
produced by encoding `bs` gives `bs` back, the encoded sequence has length `2 * len(bs)`,
and every encoded byte is at most `0x7F` (high bit zero). -/
theorem C2_pair_stream_roundtrip (bs : List Nat) (hbs : ∀ b ∈ bs, b < 256) :
    TwoByteRepresentationToByteSlice (ByteSliceToTwoByteRepresentation bs) = bs ∧
    (ByteSliceToTwoByteRepresentation bs).length = 2 * bs.length ∧
    ∀ e ∈ ByteSliceToTwoByteRepresentation bs, e ≤ 0x7F := by
  refine ⟨?_, encode_length bs, encode_le bs⟩
  unfold TwoByteRepresentationToByteSlice
  have hlen : ¬ (ByteSliceToTwoByteRepresentation bs).length % 2 = 1 := by
    rw [encode_length]; omega
  rw [if_neg hlen]
  exact combinePairs_encode bs hbs

theorem C2_pair_stream_roundtrip_witness :
    (∀ b ∈ [0, 127, 128, 255], b < 256) ∧
    TwoByteRepresentationToByteSlice (ByteSliceToTwoByteRepresentation [0, 127, 128, 255])
      = [0, 127, 128, 255] ∧
    (ByteSliceToTwoByteRepresentation [0, 127, 128, 255]).length = 2 * [0, 127, 128, 255].length ∧
    ∀ e ∈ ByteSliceToTwoByteRepresentation [0, 127, 128, 255], e ≤ 0x7F :=
  ⟨by decide, C2_pair_stream_roundtrip [0, 127, 128, 255] (by decide)⟩

/-! ## Command encoder -/

theorem write_board {σ : Type} (c : Client) (payload : List Nat) (werr : Option BoardErr)
    (v : σ) :
    (write c payload werr (none : Option (Client × σ → Client × σ)) v).1.1 =
      { c with board := c.board ++ [payload] } := by
  cases werr <;> rfl

theorem SendSysEx_board (K : Consts) (c : Client) (cmd : Nat) (p : List Nat)
    (werr : Option BoardErr) :
    (SendSysEx K c cmd p werr).1.board =
      c.board ++ [[K.StartSysEx % 256, cmd % 256] ++ (p ++ [K.EndSysEx % 256])] := by
  cases werr with
  | some e => rfl
  | none =>
    simp only [SendSysEx, write]
    cases commandResponseMap K cmd <;> rfl

theorem SendSysEx_error_none (K : Consts) (c : Client) (cmd : Nat) (p : List Nat) :
    (SendSysEx K c cmd p none).2.2 = none := rfl

/-- C6: for every command identifier `cmd` and payload `p`, a successful
`SendSysEx(cmd, p...)` makes exactly one `Write` call on the transport, with the byte
sequence `[SysEx-start, cmd, p[0], ..., p[n-1], SysEx-end]` of length `len(p) + 3`, the
payload bytes unchanged and in order. -/
theorem C6_sysex_frame_layout (K : Consts) (c : Client) (cmd : Nat) (p : List Nat)
    (hs : K.StartSysEx < 256) (he : K.EndSysEx < 256) (hc : cmd < 256) :
    (SendSysEx K c cmd p none).2.2 = none ∧
    (SendSysEx K c cmd p none).1.board = c.board ++ [K.StartSysEx :: cmd :: (p ++ [K.EndSysEx])] ∧
    (K.StartSysEx :: cmd :: (p ++ [K.EndSysEx])).length = p.length + 3 := by
  refine ⟨rfl, ?_, by simp⟩
  rw [SendSysEx_board, Nat.mod_eq_of_lt hs, Nat.mod_eq_of_lt he, Nat.mod_eq_of_lt hc]
  rfl

theorem C6_sysex_frame_layout_witness :
    (SendSysEx sampleConsts NewClient 0x6D [17] none).2.2 = none ∧
    (SendSysEx sampleConsts NewClient 0x6D [17] none).1.board =
      NewClient.board ++ [sampleConsts.StartSysEx :: 0x6D :: ([17] ++ [sampleConsts.EndSysEx])] ∧
    (sampleConsts.StartSysEx :: 0x6D :: ([17] ++ [sampleConsts.EndSysEx])).length
      = [17].length + 3 :=
  C6_sysex_frame_layout sampleConsts NewClient 0x6D [17] (by decide) (by decide) (by decide)

theorem MaxUInt16_eq : MaxUInt16 = 16383 := by decide

/-- C7: `SetSamplingInterval(ms)` returns the value-out-of-range error if and only if
`ms > 0x3FFF`; in that case the client is unchanged (in particular nothing is written);
for `ms <= 0x3FFF` exactly one message of three bytes, the first being the
sampling-interval opcode, is written. -/
theorem C7_sampling_interval_range (K : Consts) (c : Client) (ms : Nat)
    (werr : Option BoardErr) (hop : K.SysExSamplingInterval < 256) :
    ((SetSamplingInterval K c ms werr).2 = some .ErrValueOutOfRange ↔ ms > 0x3FFF) ∧
    (ms > 0x3FFF → (SetSamplingInterval K c ms werr).1 = c) ∧
    (ms ≤ 0x3FFF → (SetSamplingInterval K c ms werr).1.board =
      c.board ++ [[K.SysExSamplingInterval, ms % 256, ms >>> 7]]) := by
  by_cases h : ms > 0x3FFF
  · have h1 : ms > MaxUInt16 := by rw [MaxUInt16_eq]; exact h
    refine ⟨⟨fun _ => h, fun _ => ?_⟩, fun _ => ?_, fun h2 => absurd h2 (by omega)⟩
    · simp only [SetSamplingInterval, if_pos h1]
    · simp only [SetSamplingInterval, if_pos h1]
  · have h1 : ¬ ms > MaxUInt16 := by rw [MaxUInt16_eq]; exact h
    have h7 : (ms >>> 7) % 256 = ms >>> 7 := by
      rw [Nat.shiftRight_eq_div_pow]
      apply Nat.mod_eq_of_lt
      have : ms / 2 ^ 7 ≤ 16383 / 2 ^ 7 := Nat.div_le_div_right (by omega)
      omega
    refine ⟨⟨fun he => ?_, fun h2 => absurd h2 h⟩, fun h2 => absurd h2 h, fun _ => ?_⟩
    · simp only [SetSamplingInterval, if_neg h1] at he
      cases werr <;> simp [write] at he
    · simp only [SetSamplingInterval, if_neg h1, write_board, h7, Nat.mod_eq_of_lt hop]

theorem C7_sampling_interval_range_witness :
    ((SetSamplingInterval sampleConsts NewClient 300 none).2 = some .ErrValueOutOfRange
      ↔ 300 > 0x3FFF) ∧
    (300 > 0x3FFF → (SetSamplingInterval sampleConsts NewClient 300 none).1 = NewClient) ∧
    (300 ≤ 0x3FFF → (SetSamplingInterval sampleConsts NewClient 300 none).1.board =
      NewClient.board ++ [[sampleConsts.SysExSamplingInterval, 300 % 256, 300 >>> 7]]) :=
  C7_sampling_interval_range sampleConsts NewClient 300 none (by decide)

/-- C8 (evaluation of the code): `ExtendedReportAnalogPin` accepts the negative value `-1`
and writes the three value bytes `0xFF, 0xFF, 0xFF`; it accepts `128` and writes the value
byte `0x80`, whose high bit is set; and it accepts `2^22`, which the three bytes it writes
(`0, 0, 0`) do not represent. -/
theorem C8_extended_analog_unchecked (K : Consts) (c : Client) (pin : Nat) :
    (ExtendedReportAnalogPin K c pin (-1) none).2 = none ∧
    (ExtendedReportAnalogPin K c pin (-1) none).1.board = c.board ++
      [[K.StartSysEx % 256, K.SysExExtendedAnalog % 256, pin, 0xFF, 0xFF, 0xFF,
        K.EndSysEx % 256]] ∧
    (ExtendedReportAnalogPin K c pin 128 none).2 = none ∧
    (ExtendedReportAnalogPin K c pin 128 none).1.board = c.board ++
      [[K.StartSysEx % 256, K.SysExExtendedAnalog % 256, pin, 0x80, 0x01, 0x00,
        K.EndSysEx % 256]] ∧
    (ExtendedReportAnalogPin K c pin 4194304 none).2 = none ∧
    (ExtendedReportAnalogPin K c pin 4194304 none).1.board = c.board ++
      [[K.StartSysEx % 256, K.SysExExtendedAnalog % 256, pin, 0x00, 0x00, 0x00,
        K.EndSysEx % 256]] := by
  have e : ∀ v : Int, ¬ v > 0xFFFFFFFFFFFFFF →
      (ExtendedReportAnalogPin K c pin v none).2 = none ∧
      (ExtendedReportAnalogPin K c pin v none).1.board = c.board ++
        [[K.StartSysEx % 256, K.SysExExtendedAnalog % 256, pin, uint8 v, uint8 (v >>> 7),
          uint8 (v >>> 14), K.EndSysEx % 256]] := by
    intro v hv
    constructor
    · simp only [ExtendedReportAnalogPin, if_neg hv, SendSysEx_error_none]
    · simp only [ExtendedReportAnalogPin, if_neg hv, SendSysEx_error_none, SendSysEx_board]
      rfl
  exact ⟨(e (-1) (by decide)).1, (e (-1) (by decide)).2, (e 128 (by decide)).1,
    (e 128 (by decide)).2, (e 4194304 (by decide)).1, (e 4194304 (by decide)).2⟩

/-- C9 (evaluation of the code): for `ms = 128`, which is within range,
`SetSamplingInterval` writes the argument bytes `0x80, 0x01`; the first one is above
`0x7F`, its high bit is set. -/
theorem C9_sampling_interval_low_byte_unmasked (K : Consts) (c : Client) :
    (SetSamplingInterval K c 128 none).2 = none ∧
    (SetSamplingInterval K c 128 none).1.board =
      c.board ++ [[K.SysExSamplingInterval % 256, 0x80, 0x01]] ∧
    ¬ (0x80 ≤ 0x7F) := by
  refine ⟨rfl, rfl, by decide⟩

/-- C10 (evaluation of the code): for the pin-state payload `[pin, mode, 0x00, 0x02]` the
decoder returns state `0`, whereas `0x00 | (0x02 << 7)` is `256`; for the chunks
`[0x7F, 0x01]` it returns `255`. -/
theorem C10_pin_state_truncated_shift (pin mode : Nat) :
    parsePinStateQuery [pin, mode, 0x00, 0x02] = .ok { Pin := pin, Mode := mode, State := 0 } ∧
    parsePinStateQuery [pin, mode, 0x7F, 0x01] = .ok { Pin := pin, Mode := mode, State := 255 } ∧
    (0x00 ||| (0x02 <<< 7) : Nat) = 256 := by
  refine ⟨rfl, rfl, by decide⟩

/-- C5 (evaluation of the code): the firmware query has no entry in
`commandResponseMap`, so when its identifier differs from the three keys of the map a
successful `SendSysEx(SysExReportFirmware)` returns the nil channel and leaves every
queue as it was. -/
theorem C5_firmware_query_no_waiter (K : Consts) (c : Client) (p : List Nat)
    (h1 : K.SysExReportFirmware ≠ K.SysExAnalogMappingQuery)
    (h2 : K.SysExReportFirmware ≠ K.SysExCapabilityQuery)
    (h3 : K.SysExReportFirmware ≠ K.SysExPinStateQuery) :
    (SendSysEx K c K.SysExReportFirmware p none).2 = (none, none) ∧
    (SendSysEx K c K.SysExReportFirmware p none).1.responseChannels = c.responseChannels ∧
    (SendSysEx K c K.SysExReportFirmware p none).1.chans = c.chans := by
  have hm : commandResponseMap K K.SysExReportFirmware = none := by
    simp [commandResponseMap, h1, h2, h3]
  refine ⟨?_, ?_, ?_⟩ <;> simp only [SendSysEx, write, hm]

theorem C5_firmware_query_no_waiter_witness :
    (SendSysEx sampleConsts NewClient sampleConsts.SysExReportFirmware [] none).2
      = (none, none) ∧
    (SendSysEx sampleConsts NewClient sampleConsts.SysExReportFirmware [] none).1.responseChannels
      = NewClient.responseChannels ∧
    (SendSysEx sampleConsts NewClient sampleConsts.SysExReportFirmware [] none).1.chans
      = NewClient.chans :=
  C5_firmware_query_no_waiter sampleConsts NewClient [] (by decide) (by decide) (by decide)

/-! ## Channels and the one-shot branch of the dispatch -/

theorem chanSend_ok (chans : List Chan) (ch : Nat) (v : List Nat) (x : Chan)
    (hx : chans[ch]? = some x) (ho : x.closed = false) :
    chanSend chans ch v = .ok (chans.set ch { x with sent := x.sent ++ [v] }) := by
  simp only [chanSend, hx, ho]
  rfl

theorem chanClose_ok (chans : List Chan) (ch : Nat) (x : Chan)
    (hx : chans[ch]? = some x) (ho : x.closed = false) :
    chanClose chans ch = .ok (chans.set ch { x with closed := true }) := by
  simp only [chanClose, hx, ho]
  rfl

theorem chanSend_other (chans chans1 : List Chan) (ch w : Nat) (v : List Nat)
    (h : chanSend chans ch v = .ok chans1) (hw : w ≠ ch) : chans1[w]? = chans[w]? := by
  unfold chanSend at h
  split at h
  · cases h
  · split at h
    · cases h
    · cases h
      exact List.getElem?_set_ne (Ne.symm hw)

theorem handleSysEx_oneshot (K : Consts) (c : Client) (cmd w : Nat) (tl rest : List Nat)
    (x : Chan)
    (h1 : cmd ≠ K.SysExSerialDataV1) (h2 : cmd ≠ K.SysExSerialDataV2)
    (h3 : cmd ≠ K.SysExI2CReply) (hl : c.sysExListenerChannels cmd = none)
    (hq : c.responseChannels cmd = w :: rest) (hlen : ¬ (cmd :: tl).length < 2)
    (hx : c.chans[w]? = some x) (ho : x.closed = false) :
    handleSysEx K c (cmd :: tl) =
      (delivered c cmd w rest x (((cmd :: tl).take ((cmd :: tl).length - 1)).drop 1),
        none) := by
  have hw : w < c.chans.length := by
    rcases List.getElem?_eq_some.mp hx with ⟨h, _⟩
    exact h
  have hs := chanSend_ok c.chans w (((cmd :: tl).take ((cmd :: tl).length - 1)).drop 1) x hx ho
  have hc := chanClose_ok
    (c.chans.set w { x with sent := x.sent ++ [((cmd :: tl).take ((cmd :: tl).length - 1)).drop 1] })
    w { x with sent := x.sent ++ [((cmd :: tl).take ((cmd :: tl).length - 1)).drop 1] }
    (List.getElem?_set_self hw) ho
  simp only [handleSysEx, h1, h2, h3, or_self, if_false, hl, hq, hlen, hs, hc, delivered,
    List.set_set]

/-! ## Frames of other identifiers -/

theorem Sep_mono (c c1 : Client) (resp : Nat) (prot : Nat → Prop) (h : Sep c resp prot)
    (hq : ∀ k, k ≠ resp → ∀ w ∈ c1.responseChannels k, w ∈ c.responseChannels k)
    (hl : c1.sysExListenerChannels = c.sysExListenerChannels)
    (hi : c1.i2cListeners = c.i2cListeners) : Sep c1 resp prot := by
  obtain ⟨a1, a2, a3, a4⟩ := h
  refine ⟨fun k hk w hw => a1 k hk w (hq k hk w hw), ?_, ?_, ?_⟩
  · rw [hl]; exact a2
  · rw [hi]; exact a3
  · rw [hl]; exact a4

theorem handleSysEx_other (K : Consts) (c : Client) (resp : Nat) (prot : Nat → Prop)
    (data : List Nat) (hsep : Sep c resp prot) (hh : data.head? ≠ some resp) :
    Sep (handleSysEx K c data).1 resp prot ∧
    (handleSysEx K c data).1.responseChannels resp = c.responseChannels resp ∧
    ∀ w, prot w → (handleSysEx K c data).1.chans[w]? = c.chans[w]? := by
  have same : Sep c resp prot ∧ c.responseChannels resp = c.responseChannels resp ∧
      ∀ w, prot w → c.chans[w]? = c.chans[w]? := ⟨hsep, rfl, fun _ _ => rfl⟩
  cases data with
  | nil => exact same
  | cons cmd tl =>
    have hne : cmd ≠ resp := fun h => hh (by rw [h]; rfl)
    unfold handleSysEx
    dsimp only
    split
    · exact same
    · split
      · split
        · split
          · exact same
          · exact same
          · rename_i ch hch
            split
            · rename_i chans1 hs
              refine ⟨Sep_mono _ _ _ _ hsep (fun _ _ _ hw => hw) rfl rfl, rfl, ?_⟩
              intro w hw
              apply chanSend_other _ _ _ _ _ hs
              intro hwc
              subst hwc
              cases hi : c.i2cListeners with
              | none => rw [hi] at hch; cases hch
              | some m => rw [hi] at hch; exact hsep.2.2.1 m _ _ hi hch hw
            · exact same
        · exact same
      · split
        · rename_i ch hch
          split
          · rename_i chans1 hs
            refine ⟨Sep_mono _ _ _ _ hsep (fun _ _ _ hw => hw) rfl rfl, rfl, ?_⟩
            intro w hw
            apply chanSend_other _ _ _ _ _ hs
            intro hwc
            subst hwc
            exact hsep.2.1 _ _ hch hw
          · exact same
        · split
          · rename_i w0 rest hq
            have hw0 : ¬ prot w0 :=
              hsep.1 cmd hne w0 (by rw [hq]; exact List.mem_cons_self _ _)
            have hpop : Sep { c with responseChannels := fun k =>
                if k = cmd then rest else c.responseChannels k } resp prot := by
              refine Sep_mono _ _ _ _ hsep ?_ rfl rfl
              intro k _ w hw
              by_cases hk : k = cmd
              · simp only [hk, if_true] at hw
                rw [hk, hq]
                exact List.mem_cons_of_mem _ hw
              · simp only [hk, if_false] at hw
                exact hw
            have hqr : (if resp = cmd then rest else c.responseChannels resp)
                = c.responseChannels resp := if_neg (Ne.symm hne)
            split
            · exact ⟨hpop, hqr, fun _ _ => rfl⟩
            · split
              · exact ⟨hpop, hqr, fun _ _ => rfl⟩
              · rename_i chans1 hs
                have e1 : ∀ w, prot w → chans1[w]? = c.chans[w]? := by
                  intro w hw
                  apply chanSend_other _ _ _ _ _ hs
                  intro hwc
                  subst hwc
                  exact hw0 hw
                split
                · exact ⟨Sep_mono _ _ _ _ hpop (fun _ _ _ hw => hw) rfl rfl, hqr, e1⟩
                · rename_i chans2 hc
                  refine ⟨Sep_mono _ _ _ _ hpop (fun _ _ _ hw => hw) rfl rfl, hqr, ?_⟩
                  intro w hw
                  rw [← e1 w hw]
                  unfold chanClose at hc
                  split at hc
                  · cases hc
                  · split at hc
                    · cases hc
                    · cases hc
                      apply List.getElem?_set_ne
                      intro hwc
                      subst hwc
                      exact hw0 hw
          · exact same

theorem runFrames_other (K : Consts) (resp : Nat) (prot : Nat → Prop)
    (frames : List (List Nat)) :
    ∀ c : Client, Sep c resp prot → (∀ f ∈ frames, f.head? ≠ some resp) →
      Sep (runFrames K c frames).1 resp prot ∧
      (runFrames K c frames).1.responseChannels resp = c.responseChannels resp ∧
      ∀ w, prot w → (runFrames K c frames).1.chans[w]? = c.chans[w]? := by
  induction frames with
  | nil => intro c hsep _; exact ⟨hsep, rfl, fun _ _ => rfl⟩
  | cons f rest ih =>
    intro c hsep hf
    have h1 := handleSysEx_other K c resp prot f hsep (hf f (List.mem_cons_self _ _))
    unfold runFrames
    cases hr : handleSysEx K c f with
    | mk c1 o =>
      rw [hr] at h1
      cases o with
      | some flt => exact h1
      | none =>
        have h2 := ih c1 h1.1 (fun g hg => hf g (List.mem_cons_of_mem _ hg))
        refine ⟨h2.1, ?_, ?_⟩
        · exact h2.2.1.trans h1.2.1
        · intro w hw
          exact (h2.2.2 w hw).trans (h1.2.2 w hw)

/-- The state after a successful `SendSysEx` of a command with an entry in
`commandResponseMap`. -/
theorem SendSysEx_mapped (K : Consts) (c : Client) (cmd resp : Nat) (p : List Nat)
    (hmap : commandResponseMap K cmd = some resp) :
    SendSysEx K c cmd p none =
      ({ c with
          board := c.board ++ [[K.StartSysEx % 256, cmd % 256] ++ (p ++ [K.EndSysEx % 256])]
          chans := c.chans ++ [newChan]
          responseChannels := fun k =>
            if k = resp then c.responseChannels resp ++ [c.chans.length]
            else c.responseChannels k },
        some c.chans.length, none) := by
  simp only [SendSysEx, write, hmap]

theorem SendSysEx_mapped_facts (K : Consts) (c : Client) (cmd resp : Nat) (p : List Nat)
    (hmap : commandResponseMap K cmd = some resp) :
    (SendSysEx K c cmd p none).2 = (some c.chans.length, none) ∧
    (SendSysEx K c cmd p none).1.chans = c.chans ++ [newChan] ∧
    (SendSysEx K c cmd p none).1.responseChannels resp
      = c.responseChannels resp ++ [c.chans.length] ∧
    (∀ k, k ≠ resp →
      (SendSysEx K c cmd p none).1.responseChannels k = c.responseChannels k) ∧
    (SendSysEx K c cmd p none).1.sysExListenerChannels = c.sysExListenerChannels ∧
    (SendSysEx K c cmd p none).1.i2cListeners = c.i2cListeners := by
  rw [SendSysEx_mapped K c cmd resp p hmap]
  refine ⟨rfl, rfl, ?_, ?_, rfl, rfl⟩
  · simp only [if_true]
  · intro k hk
    simp only [hk, if_false]

theorem frame_payload (resp e : Nat) (p : List Nat) :
    ((resp :: (p ++ [e])).take ((resp :: (p ++ [e])).length - 1)).drop 1 = p := by
  simp

theorem frame_len (resp e : Nat) (p : List Nat) : ¬ (resp :: (p ++ [e])).length < 2 := by
  simp

/-- One reply frame for `resp` while the waiter `w`, on which nothing was sent, heads the
queue: the pass succeeds and the frame's payload is what `w` holds afterwards. -/
theorem handleSysEx_reply (K : Consts) (c : Client) (resp w e : Nat) (rest p : List Nat)
    (h1 : resp ≠ K.SysExSerialDataV1) (h2 : resp ≠ K.SysExSerialDataV2)
    (h3 : resp ≠ K.SysExI2CReply) (hl : c.sysExListenerChannels resp = none)
    (hq : c.responseChannels resp = w :: rest) (hx : c.chans[w]? = some newChan) :
    handleSysEx K c (resp :: (p ++ [e])) = (delivered c resp w rest newChan p, none) := by
  rw [handleSysEx_oneshot K c resp w (p ++ [e]) rest newChan h1 h2 h3 hl hq
    (frame_len resp e p) hx rfl, frame_payload]

theorem delivered_chan_self (c : Client) (cmd w : Nat) (rest p : List Nat)
    (hx : c.chans[w]? = some newChan) :
    (delivered c cmd w rest newChan p).chans[w]? = some { sent := [p], closed := true } := by
  have hw : w < c.chans.length := by
    rcases List.getElem?_eq_some.mp hx with ⟨h, _⟩
    exact h
  simp only [delivered, newChan, List.nil_append]
  exact List.getElem?_set_self hw

theorem delivered_chan_other (c : Client) (cmd w w1 : Nat) (rest p : List Nat) (x : Chan)
    (hne : w ≠ w1) : (delivered c cmd w rest x p).chans[w1]? = c.chans[w1]? := by
  simp only [delivered]
  exact List.getElem?_set_ne hne

theorem delivered_Sep (c : Client) (resp w : Nat) (rest p : List Nat) (x : Chan)
    (prot : Nat → Prop) (h : Sep c resp prot) : Sep (delivered c resp w rest x p) resp prot := by
  refine Sep_mono _ _ _ _ h ?_ rfl rfl
  intro k hk w1 hw1
  simp only [delivered, hk, if_false] at hw1
  exact hw1

/-- C3: FIFO correlation. From a state whose queue for the reply identifier `resp` is
empty, let `SendSysEx` succeed for query A and then for query B of the same command
(mapped to `resp`); the waiters returned are `wA` then `wB`. Let the reader then pass over
frames of other identifiers (`pre`), a reply frame of `resp` with payload `p1`, further
frames of other identifiers (`mid`), and a reply frame of `resp` with payload `p2`, the
reader not having been ended by the frames of other identifiers. Then both reply passes
succeed, `wA` holds exactly `p1` and `wB` holds exactly `p2` (both closed), the payload of
a frame being its bytes without the leading identifier and without the trailing end
marker. -/
theorem C3_fifo_correlation (K : Consts) (c c3 c5 : Client) (cmd resp : Nat)
    (plA plB p1 p2 : List Nat) (pre mid : List (List Nat))
    (hmap : commandResponseMap K cmd = some resp)
    (h1 : resp ≠ K.SysExSerialDataV1) (h2 : resp ≠ K.SysExSerialDataV2)
    (h3 : resp ≠ K.SysExI2CReply)
    (hv : RefsValid c) (hl : c.sysExListenerChannels resp = none)
    (hq : c.responseChannels resp = [])
    (hpre : ∀ f ∈ pre, f.head? ≠ some resp) (hmid : ∀ f ∈ mid, f.head? ≠ some resp)
    (hrun1 : runFrames K (SendSysEx K (SendSysEx K c cmd plA none).1 cmd plB none).1 pre
      = (c3, none))
    (hrun2 : runFrames K (handleSysEx K c3 (resp :: (p1 ++ [K.EndSysEx % 256]))).1 mid
      = (c5, none)) :
    (SendSysEx K c cmd plA none).2 = (some c.chans.length, none) ∧
    (SendSysEx K (SendSysEx K c cmd plA none).1 cmd plB none).2
      = (some (c.chans.length + 1), none) ∧
    (handleSysEx K c3 (resp :: (p1 ++ [K.EndSysEx % 256]))).2 = none ∧
    (handleSysEx K c3 (resp :: (p1 ++ [K.EndSysEx % 256]))).1.chans[c.chans.length]?
      = some { sent := [p1], closed := true } ∧
    (handleSysEx K c5 (resp :: (p2 ++ [K.EndSysEx % 256]))).2 = none ∧
    (handleSysEx K c5 (resp :: (p2 ++ [K.EndSysEx % 256]))).1.chans[c.chans.length]?
      = some { sent := [p1], closed := true } ∧
    (handleSysEx K c5 (resp :: (p2 ++ [K.EndSysEx % 256]))).1.chans[c.chans.length + 1]?
      = some { sent := [p2], closed := true } := by
  obtain ⟨a1, a2, a3, a4, a5, a6⟩ := SendSysEx_mapped_facts K c cmd resp plA hmap
  obtain ⟨b1, b2, b3, b4, b5, b6⟩ :=
    SendSysEx_mapped_facts K (SendSysEx K c cmd plA none).1 cmd resp plB hmap
  generalize (SendSysEx K c cmd plA none).1 = cA at *
  generalize (SendSysEx K cA cmd plB none).1 = cB at *
  have hlen : cA.chans.length = c.chans.length + 1 := by rw [a2]; simp
  rw [hlen] at b1 b3
  rw [a3, hq] at b3
  rw [a2] at b2
  generalize hn : c.chans.length = n at *
  obtain ⟨v1, v2, v3⟩ := hv
  have sB : Sep cB resp (fun w => w = n ∨ w = n + 1) := by
    refine ⟨?_, ?_, ?_, ?_⟩
    · intro k hk w hw hp
      rw [b4 k hk, a4 k hk] at hw
      have := v1 k w hw
      omega
    · intro k w hw hp
      rw [b5, a5] at hw
      have := v2 k w hw
      omega
    · intro m a w hm hw hp
      rw [b6, a6] at hm
      have := v3 m a w hm hw
      omega
    · rw [b5, a5]; exact hl
  have hB := runFrames_other K resp (fun w => w = n ∨ w = n + 1) pre cB sB hpre
  rw [hrun1] at hB
  obtain ⟨s3, q3, g3⟩ := hB
  simp only at q3 g3
  rw [b3] at q3
  have gA3 : c3.chans[n]? = some newChan := by
    rw [g3 n (Or.inl rfl), b2, List.append_assoc, List.getElem?_append_right (by omega), hn]
    simp
  have gB3 : c3.chans[n + 1]? = some newChan := by
    rw [g3 (n + 1) (Or.inr rfl), b2, List.getElem?_append_right (by simp; omega)]
    simp [hn]
  have r1 := handleSysEx_reply K c3 resp n (K.EndSysEx % 256) [n + 1] p1 h1 h2 h3 s3.2.2.2
    q3 gA3
  rw [r1] at hrun2 ⊢
  have gB4 : (delivered c3 resp n [n + 1] newChan p1).chans[n + 1]? = some newChan := by
    rw [delivered_chan_other _ _ _ _ _ _ _ (by omega)]; exact gB3
  have hD := runFrames_other K resp (fun w => w = n ∨ w = n + 1) mid
    (delivered c3 resp n [n + 1] newChan p1)
    (delivered_Sep c3 resp n [n + 1] p1 newChan _ s3) hmid
  rw [hrun2] at hD
  obtain ⟨s5, q5, g5⟩ := hD
  simp only at q5 g5
  have q5' : c5.responseChannels resp = [n + 1] := by
    rw [q5]; simp [delivered]
  have gA5 : c5.chans[n]? = some { sent := [p1], closed := true } := by
    rw [g5 n (Or.inl rfl)]; exact delivered_chan_self c3 resp n [n + 1] p1 gA3
  have gB5 : c5.chans[n + 1]? = some newChan := by
    rw [g5 (n + 1) (Or.inr rfl)]; exact gB4
  have r2 := handleSysEx_reply K c5 resp (n + 1) (K.EndSysEx % 256) [] p2 h1 h2 h3 s5.2.2.2
    q5' gB5
  rw [r2]
  refine ⟨a1, b1, rfl, delivered_chan_self c3 resp n [n + 1] p1 gA3, rfl, ?_,
    delivered_chan_self c5 resp (n + 1) [] p2 gB5⟩
  rw [delivered_chan_other _ _ _ _ _ _ _ (by omega)]
  exact gA5

theorem C3_fifo_correlation_witness :
    (SendSysEx sampleConsts demoPending 0x6B [] none).2
      = (some demoPending.chans.length, none) ∧
    (SendSysEx sampleConsts (SendSysEx sampleConsts demoPending 0x6B [] none).1 0x6B [] none).2
      = (some (demoPending.chans.length + 1), none) ∧
    (handleSysEx sampleConsts demoAfterPre
      (0x6C :: ([1, 2] ++ [sampleConsts.EndSysEx % 256]))).2 = none ∧
    (handleSysEx sampleConsts demoAfterPre
      (0x6C :: ([1, 2] ++ [sampleConsts.EndSysEx % 256]))).1.chans[demoPending.chans.length]?
      = some { sent := [[1, 2]], closed := true } ∧
    (handleSysEx sampleConsts demoAfterFirst
      (0x6C :: ([3, 4, 5] ++ [sampleConsts.EndSysEx % 256]))).2 = none ∧
    (handleSysEx sampleConsts demoAfterFirst
      (0x6C :: ([3, 4, 5] ++ [sampleConsts.EndSysEx % 256]))).1.chans[demoPending.chans.length]?
      = some { sent := [[1, 2]], closed := true } ∧
    (handleSysEx sampleConsts demoAfterFirst
      (0x6C :: ([3, 4, 5] ++ [sampleConsts.EndSysEx % 256]))).1.chans[demoPending.chans.length + 1]?
      = some { sent := [[3, 4, 5]], closed := true } :=
  C3_fifo_correlation sampleConsts demoPending demoAfterPre demoAfterFirst 0x6B 0x6C
    [] [] [1, 2] [3, 4, 5] [[0x6E, 17, 1, 0, 0xF7]] []
    (by decide) (by decide) (by decide) (by decide)
    (by
      refine ⟨?_, ?_, ?_⟩
      · intro k w hw
        by_cases hk : k = 0x6E
        · subst hk
          have : w = 0 := by simpa [demoPending, SendSysEx, write, commandResponseMap,
            sampleConsts, NewClient] using hw
          subst this
          decide
        · exfalso
          simp [demoPending, SendSysEx, write, commandResponseMap, sampleConsts, NewClient,
            hk] at hw
      · intro k w hw
        cases hw
      · intro m a w hm
        cases hm)
    rfl (by decide) (by decide) (by decide) rfl rfl

/-! ## The invariant of the correlation table -/

theorem Inv_NewClient : Inv NewClient := by
  refine ⟨?_, ?_, ?_, ?_, fun _ => rfl, rfl⟩
  · intro k w hw; cases hw
  · intro k; exact List.nodup_nil
  · intro k1 k2 w hw; cases hw
  · intro w ch h; cases h

/-- Appending a new channel and queueing it at the tail of (a sublist of) one queue keeps
the invariant. -/
theorem Inv_enqueue (c c1 : Client) (key : Nat) (base : List Nat) (h : Inv c)
    (hbase : ∀ w ∈ base, w ∈ c.responseChannels key) (hnd : base.Nodup)
    (hch : c1.chans = c.chans ++ [newChan])
    (hq : c1.responseChannels key = base ++ [c.chans.length])
    (ho : ∀ k, k ≠ key → c1.responseChannels k = c.responseChannels k)
    (hl : c1.sysExListenerChannels = c.sysExListenerChannels)
    (hi : c1.i2cListeners = c.i2cListeners) : Inv c1 := by
  obtain ⟨i1, i2, i3, i4, i5, i6⟩ := h
  have valid : ∀ k, ∀ w ∈ c.responseChannels k, w < c.chans.length := by
    intro k w hw
    rcases List.getElem?_eq_some.mp (i1 k w hw) with ⟨hlt, _⟩
    exact hlt
  have old : ∀ k, ∀ w ∈ c.responseChannels k, c1.chans[w]? = some newChan := by
    intro k w hw
    rw [hch, List.getElem?_append_left (valid k w hw)]
    exact i1 k w hw
  have mem : ∀ k w, w ∈ c1.responseChannels k →
      (k = key ∧ w = c.chans.length) ∨ (w ∈ c.responseChannels k) := by
    intro k w hw
    by_cases hk : k = key
    · subst hk
      rw [hq, List.mem_append, List.mem_singleton] at hw
      rcases hw with hw | hw
      · exact Or.inr (hbase w hw)
      · exact Or.inl ⟨rfl, hw⟩
    · rw [ho k hk] at hw
      exact Or.inr hw
  refine ⟨?_, ?_, ?_, ?_, ?_, ?_⟩
  · intro k w hw
    rcases mem k w hw with ⟨_, hw1⟩ | hw1
    · rw [hw1, hch]
      exact List.getElem?_concat_length _ _
    · exact old k w hw1
  · intro k
    by_cases hk : k = key
    · subst hk
      rw [hq]
      refine List.Nodup.append hnd (List.nodup_singleton _) ?_
      intro w hw hw1
      rw [List.mem_singleton] at hw1
      have := valid k w (hbase w hw)
      omega
    · rw [ho k hk]
      exact i2 k
  · intro k1 k2 w hw1 hw2
    rcases mem k1 w hw1 with ⟨e1, f1⟩ | g1 <;> rcases mem k2 w hw2 with ⟨e2, f2⟩ | g2
    · rw [e1, e2]
    · have := valid k2 w g2
      omega
    · have := valid k1 w g1
      omega
    · exact i3 k1 k2 w g1 g2
  · intro w ch hw
    rw [hch, List.getElem?_append] at hw
    split at hw
    · exact i4 w ch hw
    · have : ch = newChan := by
        rcases List.getElem?_eq_some.mp hw with ⟨hlt, he⟩
        simp only [List.length_singleton] at hlt
        have h0 : w - c.chans.length = 0 := by omega
        simp only [h0, List.getElem_cons_zero] at he
        exact he.symm
      rw [this]
      exact Nat.zero_le _
  · intro k; rw [hl]; exact i5 k
  · rw [hi]; exact i6

theorem Inv_board (c : Client) (b : List (List Nat)) (h : Inv c) :
    Inv { c with board := b } := h

theorem Inv_Start (K : Consts) (c : Client) (h : Inv c) : Inv (Start K c).1 := by
  unfold Start
  split
  · exact h
  · refine Inv_enqueue c _ K.SysExReportFirmware [] h ?_ List.nodup_nil rfl ?_ ?_ rfl rfl
    · intro w hw; cases hw
    · simp only [if_true, List.nil_append]
    · intro k hk
      simp only [hk, if_false]

theorem Inv_SendSysEx (K : Consts) (c : Client) (cmd : Nat) (p : List Nat)
    (werr : Option BoardErr) (h : Inv c) : Inv (SendSysEx K c cmd p werr).1 := by
  cases werr with
  | some e => exact Inv_board c _ h
  | none =>
    cases hmap : commandResponseMap K cmd with
    | none =>
      have : (SendSysEx K c cmd p none).1 = { c with board :=
          c.board ++ [[K.StartSysEx % 256, cmd % 256] ++ (p ++ [K.EndSysEx % 256])] } := by
        simp only [SendSysEx, write, hmap]
      rw [this]
      exact Inv_board c _ h
    | some resp =>
      obtain ⟨_, a2, a3, a4, a5, a6⟩ := SendSysEx_mapped_facts K c cmd resp p hmap
      exact Inv_enqueue c _ resp (c.responseChannels resp) h (fun _ hw => hw) (h.2.1 resp)
        a2 a3 a4 a5 a6

theorem Inv_popped (c : Client) (cmd w : Nat) (rest : List Nat) (h : Inv c)
    (hq : c.responseChannels cmd = w :: rest) : Inv (popped c cmd rest) := by
  obtain ⟨i1, i2, i3, i4, i5, i6⟩ := h
  have mem : ∀ k x, x ∈ (popped c cmd rest).responseChannels k → x ∈ c.responseChannels k := by
    intro k x hx
    by_cases hk : k = cmd
    · simp only [popped, hk, if_true] at hx
      rw [hk, hq]
      exact List.mem_cons_of_mem _ hx
    · simp only [popped, hk, if_false] at hx
      exact hx
  refine ⟨fun k x hx => i1 k x (mem k x hx), ?_, ?_, i4, i5, i6⟩
  · intro k
    by_cases hk : k = cmd
    · simp only [popped, hk, if_true]
      have := i2 cmd
      rw [hq] at this
      exact this.of_cons
    · simp only [popped, hk, if_false]
      exact i2 k
  · intro k1 k2 x h1 h2
    exact i3 k1 k2 x (mem k1 x h1) (mem k2 x h2)

/-- After a one-shot delivery the waiter delivered to is in no queue. -/
theorem delivered_not_queued (c : Client) (cmd w : Nat) (rest : List Nat) (x : Chan)
    (v : List Nat) (h : Inv c) (hq : c.responseChannels cmd = w :: rest) :
    ∀ k, w ∉ (delivered c cmd w rest x v).responseChannels k := by
  intro k hw
  have hnd := h.2.1 cmd
  rw [hq, List.nodup_cons] at hnd
  by_cases hk : k = cmd
  · simp only [delivered, hk, if_true] at hw
    exact hnd.1 hw
  · simp only [delivered, hk, if_false] at hw
    exact hk (h.2.2.1 k cmd w hw (by rw [hq]; exact List.mem_cons_self _ _))

theorem Inv_delivered (c : Client) (cmd w : Nat) (rest : List Nat) (v : List Nat)
    (h : Inv c) (hq : c.responseChannels cmd = w :: rest) :
    Inv (delivered c cmd w rest newChan v) := by
  have hp := Inv_popped c cmd w rest h hq
  have hnq := delivered_not_queued c cmd w rest newChan v h hq
  obtain ⟨i1, i2, i3, i4, i5, i6⟩ := hp
  refine ⟨?_, i2, i3, ?_, i5, i6⟩
  · intro k x hx
    have hne : w ≠ x := fun e => hnq k (by rw [e]; exact hx)
    rw [delivered_chan_other c cmd w x rest v newChan hne]
    exact i1 k x hx
  · intro x ch hx
    by_cases hne : w = x
    · subst hne
      simp only [delivered] at hx
      rcases List.getElem?_eq_some.mp hx with ⟨hlt, he⟩
      simp only [List.getElem_set_self] at he
      rw [← he]
      simp [newChan]
    · rw [delivered_chan_other c cmd w x rest v newChan hne] at hx
      exact i4 x ch hx

/-- Under the invariant a pass of the reader over a SysEx frame leaves the client as it
was and ends with an error value or an index panic, or removes the head of a queue and
ends with an index panic, or performs a one-shot delivery to the head of a queue. -/
theorem handleSysEx_cases (K : Consts) (c : Client) (data : List Nat) (h : Inv c) :
    ((handleSysEx K c data).1 = c ∧
      ((∃ e, (handleSysEx K c data).2 = some (.error e)) ∨
        (handleSysEx K c data).2 = some .indexOutOfRange)) ∨
    (∃ cmd w rest, c.responseChannels cmd = w :: rest ∧
      (handleSysEx K c data = (popped c cmd rest, some .indexOutOfRange) ∨
        ∃ v, handleSysEx K c data = (delivered c cmd w rest newChan v, none))) := by
  cases data with
  | nil => exact Or.inl ⟨rfl, Or.inl ⟨_, rfl⟩⟩
  | cons cmd tl =>
    by_cases hs : cmd = K.SysExSerialDataV1 ∨ cmd = K.SysExSerialDataV2
    · left
      have e : handleSysEx K c (cmd :: tl) = (c, some (.error .ErrUnsupportedFeature)) := by
        simp only [handleSysEx, hs, if_true]
      rw [e]
      exact ⟨rfl, Or.inl ⟨_, rfl⟩⟩
    · by_cases hI : cmd = K.SysExI2CReply
      · left
        have hi : c.i2cListeners = none := h.2.2.2.2.2
        subst hI
        rcases tl with _ | ⟨a, _ | ⟨b, t⟩⟩
        · have e : handleSysEx K c [K.SysExI2CReply] = (c, some .indexOutOfRange) := by
            simp [handleSysEx, hs]
          rw [e]
          exact ⟨rfl, Or.inr rfl⟩
        · have e : handleSysEx K c [K.SysExI2CReply, a] = (c, some .indexOutOfRange) := by
            simp [handleSysEx, hs]
          rw [e]
          exact ⟨rfl, Or.inr rfl⟩
        · have e : handleSysEx K c (K.SysExI2CReply :: a :: b :: t)
              = (c, some (.error .ErrNoI2CListenerForAddress)) := by
            simp [handleSysEx, hs, hi]
          rw [e]
          exact ⟨rfl, Or.inl ⟨_, rfl⟩⟩
      · cases hq : c.responseChannels cmd with
        | nil =>
          left
          have e : handleSysEx K c (cmd :: tl)
              = (c, some (.error .ErrUnexpectedSysExMessageTypeReceived)) := by
            simp only [handleSysEx, hs, if_false, hI, h.2.2.2.2.1 cmd, hq]
          rw [e]
          exact ⟨rfl, Or.inl ⟨_, rfl⟩⟩
        | cons w rest =>
          right
          refine ⟨cmd, w, rest, hq, ?_⟩
          by_cases hlen : (cmd :: tl).length < 2
          · left
            simp only [handleSysEx, hs, if_false, hI, h.2.2.2.2.1 cmd, hq, hlen, if_true,
              popped]
          · right
            refine ⟨_, handleSysEx_oneshot K c cmd w tl rest newChan
              (fun e => hs (Or.inl e)) (fun e => hs (Or.inr e)) hI (h.2.2.2.2.1 cmd) hq hlen
              (h.1 cmd w (by rw [hq]; exact List.mem_cons_self _ _)) rfl⟩

theorem Inv_handleSysEx (K : Consts) (c : Client) (data : List Nat) (h : Inv c) :
    Inv (handleSysEx K c data).1 := by
  rcases handleSysEx_cases K c data h with ⟨e, _⟩ | ⟨cmd, w, rest, hq, e | ⟨v, e⟩⟩
  · rw [e]; exact h
  · rw [e]; exact Inv_popped c cmd w rest h hq
  · rw [e]; exact Inv_delivered c cmd w rest v h hq

theorem Reachable_Inv (K : Consts) (c : Client) (h : Reachable K c) : Inv c := by
  induction h with
  | init => exact Inv_NewClient
  | start _ ih => exact Inv_Start K _ ih
  | send cmd p werr _ ih => exact Inv_SendSysEx K _ cmd p werr ih
  | dispatch data _ ih => exact Inv_handleSysEx K _ data ih

theorem queue_index_unique (c : Client) (h : Inv c) (k1 k2 i j w : Nat)
    (h1 : (c.responseChannels k1)[i]? = some w) (h2 : (c.responseChannels k2)[j]? = some w) :
    k1 = k2 ∧ i = j := by
  have hk : k1 = k2 := h.2.2.1 k1 k2 w (List.mem_iff_getElem?.mpr ⟨i, h1⟩)
    (List.mem_iff_getElem?.mpr ⟨j, h2⟩)
  subst hk
  refine ⟨rfl, ?_⟩
  rcases List.getElem?_eq_some.mp h1 with ⟨hi, ei⟩
  rcases List.getElem?_eq_some.mp h2 with ⟨hj, ej⟩
  exact ((h.2.1 k1).getElem_inj_iff).mp (ei.trans ej.symm)

/-- C4: exactly-once delivery as an invariant. In every client state reachable from
`NewClient` by `Start`, `SendSysEx` calls and frame dispatches: (1) no waiter occurs more
than once across the per-identifier queues; (2) every channel has received at most one
payload; (3) a further frame dispatch never sends on a closed channel and never closes a
closed channel, every channel it delivers to or closes is in no queue afterwards, and a
channel that has already received a payload or is closed is left exactly as it is. -/
theorem C4_exactly_once (K : Consts) (c : Client) (hr : Reachable K c) :
    (∀ k1 k2 i j w : Nat, (c.responseChannels k1)[i]? = some w →
      (c.responseChannels k2)[j]? = some w → k1 = k2 ∧ i = j) ∧
    (∀ (w : Nat) (ch : Chan), c.chans[w]? = some ch → ch.sent.length ≤ 1) ∧
    (∀ data : List Nat,
      (handleSysEx K c data).2 ≠ some .sendOnClosed ∧
      (handleSysEx K c data).2 ≠ some .closeOfClosed ∧
      (∀ w : Nat, (handleSysEx K c data).1.chans[w]? ≠ c.chans[w]? →
        ∀ k, w ∉ (handleSysEx K c data).1.responseChannels k) ∧
      (∀ (w : Nat) (ch : Chan), c.chans[w]? = some ch → (ch.sent ≠ [] ∨ ch.closed = true) →
        (handleSysEx K c data).1.chans[w]? = some ch)) := by
  have h := Reachable_Inv K c hr
  refine ⟨queue_index_unique c h, h.2.2.2.1, ?_⟩
  intro data
  rcases handleSysEx_cases K c data h with ⟨e, f | f⟩ | ⟨cmd, w0, rest, hq, e | ⟨v, e⟩⟩
  · obtain ⟨er, f⟩ := f
    rw [e, f]
    exact ⟨by simp, by simp, fun w hw => absurd rfl hw, fun w ch hw _ => hw⟩
  · rw [e, f]
    exact ⟨by simp, by simp, fun w hw => absurd rfl hw, fun w ch hw _ => hw⟩
  · rw [e]
    exact ⟨by simp, by simp, fun w hw => absurd rfl hw, fun w ch hw _ => hw⟩
  · rw [e]
    have hnew : c.chans[w0]? = some newChan :=
      h.1 cmd w0 (by rw [hq]; exact List.mem_cons_self _ _)
    refine ⟨by simp, by simp, ?_, ?_⟩
    · intro w hw
      by_cases hne : w0 = w
      · subst hne
        exact delivered_not_queued c cmd w0 rest newChan v h hq
      · exact absurd (delivered_chan_other c cmd w0 w rest v newChan hne) hw
    · intro w ch hw hch
      have hne : w0 ≠ w := by
        intro e0
        subst e0
        rw [hnew] at hw
        injection hw with hw
        subst hw
        rcases hch with hch | hch
        · exact hch rfl
        · cases hch
      rw [delivered_chan_other c cmd w0 w rest v newChan hne]
      exact hw

theorem C4_exactly_once_witness :
    Reachable sampleConsts demoDelivered ∧
    ((∀ k1 k2 i j w : Nat, (demoDelivered.responseChannels k1)[i]? = some w →
      (demoDelivered.responseChannels k2)[j]? = some w → k1 = k2 ∧ i = j) ∧
    (∀ (w : Nat) (ch : Chan), demoDelivered.chans[w]? = some ch → ch.sent.length ≤ 1) ∧
    (∀ data : List Nat,
      (handleSysEx sampleConsts demoDelivered data).2 ≠ some .sendOnClosed ∧
      (handleSysEx sampleConsts demoDelivered data).2 ≠ some .closeOfClosed ∧
      (∀ w : Nat, (handleSysEx sampleConsts demoDelivered data).1.chans[w]?
          ≠ demoDelivered.chans[w]? →
        ∀ k, w ∉ (handleSysEx sampleConsts demoDelivered data).1.responseChannels k) ∧
      (∀ (w : Nat) (ch : Chan), demoDelivered.chans[w]? = some ch →
        (ch.sent ≠ [] ∨ ch.closed = true) →
        (handleSysEx sampleConsts demoDelivered data).1.chans[w]? = some ch))) :=
  ⟨Reachable.dispatch [0x6C, 1, 2, 0xF7]
      (Reachable.send 0x6B [] none
        (Reachable.send 0x6B [] none (Reachable.send 0x6D [17] none Reachable.init))),
    C4_exactly_once sampleConsts demoDelivered
      (Reachable.dispatch [0x6C, 1, 2, 0xF7]
        (Reachable.send 0x6B [] none
          (Reachable.send 0x6B [] none (Reachable.send 0x6D [17] none Reachable.init))))⟩


/-! ## Text decoding -/

theorem combinePairs_length (l : List Nat) : (combinePairs l).length = l.length / 2 := by
  induction l using combinePairs.induct with
  | case1 a b rest ih =>
    simp only [combinePairs, List.length_cons, ih]
    omega
  | case2 l h =>
    rcases l with _ | ⟨a, _ | ⟨b, rest⟩⟩
    · rfl
    · simp [combinePairs]
    · exact absurd rfl (h a b rest)

theorem combinePairs_getElem (l : List Nat) :
    ∀ i a b : Nat, l[2 * i]? = some a → l[2 * i + 1]? = some b →
      (combinePairs l)[i]? = some (TwoByteToByte a b) := by
  induction l using combinePairs.induct with
  | case1 x y rest ih =>
    intro i a b ha hb
    cases i with
    | zero =>
      simp only [Nat.mul_zero, List.getElem?_cons_zero, Option.some.injEq] at ha
      simp only [Nat.mul_zero, Nat.zero_add, List.getElem?_cons_succ, List.getElem?_cons_zero,
        Option.some.injEq] at hb
      simp only [combinePairs, List.getElem?_cons_zero, ha, hb]
    | succ j =>
      have e1 : 2 * (j + 1) = (2 * j + 1) + 1 := by omega
      have e2 : 2 * (j + 1) + 1 = ((2 * j + 1) + 1) + 1 := by omega
      rw [e1, List.getElem?_cons_succ, List.getElem?_cons_succ] at ha
      rw [e2, List.getElem?_cons_succ, List.getElem?_cons_succ] at hb
      simp only [combinePairs, List.getElem?_cons_succ]
      exact ih j a b ha hb
  | case2 l h =>
    intro i a b ha hb
    rcases l with _ | ⟨x, _ | ⟨y, rest⟩⟩
    · simp at ha
    · have : ([x] : List Nat)[2 * i + 1]? = none := by
        apply List.getElem?_eq_none
        simp
      rw [this] at hb
      cases hb
    · exact absurd rfl (h x y rest)

/-- C13: for a byte sequence of even length `2N`, `TwoByteString` yields exactly `N`
characters, the `i`-th having code `TwoByteToByte(bs[2i], bs[2i+1])`; for a byte sequence of
odd length it yields what it yields for the sequence padded with one zero byte, hence
`(len(bs)+1)/2` characters. -/
theorem C13_text_decode (bs : List Nat) :
    (bs.length % 2 = 0 →
      (TwoByteString bs).length = bs.length / 2 ∧
      ∀ i a b : Nat, bs[2 * i]? = some a → bs[2 * i + 1]? = some b →
        (TwoByteString bs)[i]? = some (TwoByteToByte a b)) ∧
    (bs.length % 2 = 1 →
      TwoByteString bs = TwoByteString (bs ++ [0]) ∧
      (TwoByteString bs).length = (bs.length + 1) / 2) := by
  constructor
  · intro h
    have hn : ¬ bs.length % 2 = 1 := by omega
    simp only [TwoByteString, if_neg hn]
    exact ⟨combinePairs_length bs, combinePairs_getElem bs⟩
  · intro h
    have hp : ¬ (bs ++ [0]).length % 2 = 1 := by
      simp only [List.length_append, List.length_singleton]
      omega
    have e : TwoByteString bs = TwoByteString (bs ++ [0]) := by
      unfold TwoByteString
      rw [if_pos h, if_neg hp]
    refine ⟨e, ?_⟩
    rw [e]
    unfold TwoByteString
    rw [if_neg hp, combinePairs_length, List.length_append, List.length_singleton]

theorem C13_text_decode_witness :
    ((TwoByteString [0x48, 0x00, 0x69, 0x01]).length = [0x48, 0x00, 0x69, 0x01].length / 2 ∧
      ∀ i a b : Nat, [0x48, 0x00, 0x69, 0x01][2 * i]? = some a →
        [0x48, 0x00, 0x69, 0x01][2 * i + 1]? = some b →
        (TwoByteString [0x48, 0x00, 0x69, 0x01])[i]? = some (TwoByteToByte a b)) ∧
    (TwoByteString [0x48, 0x00, 0x69] = TwoByteString ([0x48, 0x00, 0x69] ++ [0]) ∧
      (TwoByteString [0x48, 0x00, 0x69]).length = ([0x48, 0x00, 0x69].length + 1) / 2) :=
  ⟨(C13_text_decode [0x48, 0x00, 0x69, 0x01]).1 (by decide),
    (C13_text_decode [0x48, 0x00, 0x69]).2 (by decide)⟩

/-! ## Digital reporting -/

theorem and_0xF_of_lt_8 (x : Nat) (h : x < 8) : x &&& 0xF = x := by
  revert x
  decide

/-- C20: for every pin and report flag, `SetDigitalPinReporting(pin, report)` does what
`SetDigitalPortReporting(pin mod 8, report)` does: one `Write` call with the two bytes
`[ReportDigitalPort | (pin mod 8), 1 if report else 0]`. -/
theorem C20_pin_reporting_as_port (K : Consts) (c : Client) (pin : Nat) (report : Bool)
    (werr : Option BoardErr) (hop : K.ReportDigitalPort < 256) :
    SetDigitalPinReporting K c pin report werr
      = SetDigitalPortReporting K c (pin % 8) report werr ∧
    (SetDigitalPinReporting K c pin report werr).1.board
      = c.board ++ [[K.ReportDigitalPort ||| (pin % 8), if report then 1 else 0]] := by
  refine ⟨rfl, ?_⟩
  simp only [SetDigitalPinReporting, SetDigitalPortReporting, write_board,
    Nat.mod_eq_of_lt hop, and_0xF_of_lt_8 (pin % 8) (Nat.mod_lt _ (by decide))]

theorem C20_pin_reporting_as_port_witness :
    SetDigitalPinReporting sampleConsts NewClient 13 true none
      = SetDigitalPortReporting sampleConsts NewClient (13 % 8) true none ∧
    (SetDigitalPinReporting sampleConsts NewClient 13 true none).1.board
      = NewClient.board ++
        [[sampleConsts.ReportDigitalPort ||| (13 % 8), if true then 1 else 0]] :=
  C20_pin_reporting_as_port sampleConsts NewClient 13 true none (by decide)

/-! ## Analog mapping -/

theorem analogMappingLoop_eq (data : List Nat) :
    ∀ (i : Nat) (acc : List Nat), analogMappingLoop data i acc = acc ++
      ((data.enumFrom i).filter
        (fun p => decide (p.2 ≠ CapabilityResponsePinDelimiter))).map (fun p => p.1 % 256) := by
  induction data with
  | nil => intro i acc; simp [analogMappingLoop]
  | cons b rest ih =>
    intro i acc
    simp only [analogMappingLoop, ih, List.enumFrom_cons]
    by_cases hb : b = CapabilityResponsePinDelimiter
    · simp [hb, List.filter_cons]
    · simp [hb, List.filter_cons]

/-- C12 (as the code does it): the analog-mapping result has one entry for each payload
byte different from `0x7F`, in payload order, and the entry is the position of that byte
taken modulo 256 (the entries are `uint8`); for a payload of at most 256 bytes the entry
is the position itself. -/
theorem C12_analog_mapping_positions (data : List Nat) :
    parseAnalogMappingQuery data = (nonSentinelPositions data).map (fun i => i % 256) ∧
    (data.length ≤ 256 → parseAnalogMappingQuery data = nonSentinelPositions data) := by
  have e : parseAnalogMappingQuery data
      = (nonSentinelPositions data).map (fun i => i % 256) := by
    simp only [parseAnalogMappingQuery, analogMappingLoop_eq, nonSentinelPositions,
      List.enum_eq_enumFrom, List.nil_append, List.map_map]
    rfl
  refine ⟨e, fun hlen => ?_⟩
  rw [e]
  conv_rhs => rw [← List.map_id (nonSentinelPositions data)]
  apply List.map_congr_left
  intro i hi
  simp only [nonSentinelPositions, List.mem_map, List.mem_filter] at hi
  obtain ⟨p, ⟨hp, _⟩, rfl⟩ := hi
  have := List.fst_lt_of_mem_enum hp
  simp only [id]
  omega

theorem C12_analog_mapping_positions_witness :
    parseAnalogMappingQuery [0x7F, 14, 15, 0x7F, 16]
      = (nonSentinelPositions [0x7F, 14, 15, 0x7F, 16]).map (fun i => i % 256) ∧
    ([0x7F, 14, 15, 0x7F, 16].length ≤ 256 →
      parseAnalogMappingQuery [0x7F, 14, 15, 0x7F, 16]
        = nonSentinelPositions [0x7F, 14, 15, 0x7F, 16]) :=
  C12_analog_mapping_positions [0x7F, 14, 15, 0x7F, 16]

set_option maxRecDepth 100000 in
/-- C12, counterexample: for a payload of 257 zero bytes the entry for the byte at
position 256 is `0`, not `256`, so the result is not the sequence of positions. -/
theorem C12_position_truncated :
    (parseAnalogMappingQuery (List.replicate 257 0))[256]? = some 0 ∧
    (nonSentinelPositions (List.replicate 257 0))[256]? = some 256 ∧
    parseAnalogMappingQuery (List.replicate 257 0)
      ≠ nonSentinelPositions (List.replicate 257 0) := by
  have h1 : (parseAnalogMappingQuery (List.replicate 257 0))[256]? = some 0 := by decide
  have h2 : (nonSentinelPositions (List.replicate 257 0))[256]? = some 256 := by decide
  refine ⟨h1, h2, fun h => ?_⟩
  rw [h, h2] at h1
  cases h1

/-! ## Capability decoding -/

theorem capabilityLoop_pair (b r : Nat) (rest : List Nat) (pins : List ModeMap)
    (pindex : Nat) (m : ModeMap) (hb : b ≠ CapabilityResponsePinDelimiter)
    (hp : pins[pindex]? = some m) :
    capabilityLoop (b :: r :: rest) pins pindex
      = capabilityLoop rest (pins.set pindex (m.insert b r)) pindex := by
  simp only [capabilityLoop, hb, if_false, hp]

theorem capabilityLoop_delim (rest : List Nat) (pins : List ModeMap) (pindex : Nat) :
    capabilityLoop (CapabilityResponsePinDelimiter :: rest) pins pindex
      = capabilityLoop rest (pins ++ [ModeMap.empty]) (pindex + 1) := by
  cases rest with
  | nil => simp only [capabilityLoop, if_true]
  | cons r rest1 => simp only [capabilityLoop, if_true]

theorem set_last (pre : List ModeMap) (cur x : ModeMap) :
    (pre ++ [cur]).set pre.length x = pre ++ [x] := by
  induction pre with
  | nil => rfl
  | cons a pre ih => simp only [List.cons_append, List.length_cons, List.set_cons_succ, ih]

theorem getElem?_last (pre : List ModeMap) (cur : ModeMap) :
    (pre ++ [cur])[pre.length]? = some cur :=
  List.getElem?_concat_length pre cur

theorem capabilityLoop_group (tail : List Nat) (pre : List ModeMap) (g : List (Nat × Nat)) :
    ∀ cur : ModeMap, (∀ p ∈ g, p.1 ≠ CapabilityResponsePinDelimiter) →
      capabilityLoop (groupBytes g ++ tail) (pre ++ [cur]) pre.length
        = capabilityLoop tail (pre ++ [assignGroup cur g]) pre.length := by
  induction g with
  | nil => intro cur _; rfl
  | cons p g ih =>
    intro cur hm
    have hp := hm p (List.mem_cons_self _ _)
    simp only [groupBytes, List.cons_append]
    rw [capabilityLoop_pair p.1 p.2 _ _ _ cur hp (getElem?_last pre cur), set_last,
      ih _ (fun q hq => hm q (List.mem_cons_of_mem _ hq))]
    rfl

theorem capabilityLoop_groups (gs : List (List (Nat × Nat))) :
    ∀ (g : List (Nat × Nat)) (pre : List ModeMap) (cur : ModeMap),
      (∀ h ∈ g :: gs, ∀ p ∈ h, p.1 ≠ CapabilityResponsePinDelimiter) →
      capabilityLoop (groupsPayload (g :: gs)) (pre ++ [cur]) pre.length
        = .ok (pre ++ assignGroup cur g :: gs.map (assignGroup ModeMap.empty)) := by
  induction gs with
  | nil =>
    intro g pre cur hm
    have := capabilityLoop_group [] pre g cur (hm g (List.mem_cons_self _ _))
    simp only [List.append_nil] at this
    simp only [groupsPayload, this, capabilityLoop, List.map_nil]
  | cons g1 gs ih =>
    intro g pre cur hm
    simp only [groupsPayload]
    rw [capabilityLoop_group _ pre g cur (hm g (List.mem_cons_self _ _)),
      capabilityLoop_delim]
    have := ih g1 (pre ++ [assignGroup cur g]) ModeMap.empty
      (fun h hh => hm h (List.mem_cons_of_mem _ hh))
    simp only [List.length_append, List.length_singleton] at this
    rw [this]
    simp only [List.append_assoc, List.singleton_append, List.map_cons]

theorem assignGroup_concat (cur : ModeMap) (g : List (Nat × Nat)) (p : Nat × Nat) :
    assignGroup cur (g ++ [p]) = (assignGroup cur g).insert p.1 p.2 := by
  simp only [assignGroup, List.foldl_append, List.foldl_cons, List.foldl_nil]

theorem assignGroup_lookup (cur : ModeMap) (g : List (Nat × Nat)) (mode : Nat) :
    assignGroup cur g mode = (lastResolution g mode).or (cur mode) := by
  induction g using List.reverseRecOn with
  | nil => rfl
  | append_singleton g p ih =>
    rw [assignGroup_concat]
    simp only [ModeMap.insert, lastResolution, List.reverse_append, List.reverse_singleton,
      List.singleton_append, List.find?_cons]
    by_cases hp : p.1 = mode
    · simp [hp]
    · have hp1 : ¬ mode = p.1 := fun e => hp e.symm
      simp only [hp, hp1, decide_False, if_false]
      exact ih

/-- C11: for a payload made of `k >= 1` groups separated by single `0x7F` bytes, each group
a sequence of (mode, resolution) pairs whose mode byte is not `0x7F`, the capability
decoder returns exactly `k` pin entries, and the `j`-th entry maps precisely the modes that
occur in group `j`, each to the resolution of its last occurrence in that group. -/
theorem C11_capability_groups (gs : List (List (Nat × Nat))) (hne : gs ≠ [])
    (hm : ∀ g ∈ gs, ∀ p ∈ g, p.1 ≠ 0x7F) :
    ∃ pins : List ModeMap,
      parseCapabilityCommand (groupsPayload gs) = .ok pins ∧
      pins.length = gs.length ∧
      ∀ (j : Nat) (g : List (Nat × Nat)), gs[j]? = some g →
        ∃ m : ModeMap, pins[j]? = some m ∧ ∀ mode, m mode = lastResolution g mode := by
  cases gs with
  | nil => exact absurd rfl hne
  | cons g gs =>
    refine ⟨(g :: gs).map (assignGroup ModeMap.empty), ?_, by simp, ?_⟩
    · have := capabilityLoop_groups gs g [] ModeMap.empty hm
      simpa [parseCapabilityCommand] using this
    · intro j h hj
      refine ⟨assignGroup ModeMap.empty h, ?_, ?_⟩
      · rw [List.getElem?_map, hj]
        rfl
      · intro mode
        rw [assignGroup_lookup]
        cases lastResolution h mode <;> rfl

theorem C11_capability_groups_witness :
    ∃ pins : List ModeMap,
      parseCapabilityCommand (groupsPayload [[(0, 1), (1, 1), (0, 0x7F)], [], [(3, 8)]])
        = .ok pins ∧
      pins.length = [[(0, 1), (1, 1), (0, 0x7F)], [], [(3, 8)]].length ∧
      ∀ (j : Nat) (g : List (Nat × Nat)),
        [[(0, 1), (1, 1), (0, 0x7F)], [], [(3, 8)]][j]? = some g →
        ∃ m : ModeMap, pins[j]? = some m ∧ ∀ mode, m mode = lastResolution g mode :=
  C11_capability_groups [[(0, 1), (1, 1), (0, 0x7F)], [], [(3, 8)]] (by decide) (by decide)

/-! ## Persistent listeners -/

/-- C15 (evaluation of the code): on the client made by `NewClient`, whose `i2cListeners`
map is nil, `SetI2CMessageChannel` panics with an assignment to an entry of a nil map, for
every address and every sink; so it does after the caller has made the sink channel. -/
theorem C15_i2c_listener_nil_map (address : Nat) (sink : Option Nat) :
    SetI2CMessageChannel NewClient address sink = .error .nilMapWrite ∧
    SetI2CMessageChannel (makeChan NewClient).1 address (some (makeChan NewClient).2)
      = .error .nilMapWrite :=
  ⟨rfl, rfl⟩

/-- C17 (as the code does it): after `SetSerialMessageChannel(ch)` has installed `ch`,
a pass of the reader over a SysEx frame whose identifier is `SysExSerialDataV1` or
`SysExSerialDataV2` ends the reader with `ErrUnsupportedFeature` and leaves the client as
it was: nothing is delivered, `ch` remains registered, no waiter is consumed. -/
theorem C17_serial_frames_unsupported (K : Consts) (c c1 : Client) (ch : Option Nat)
    (tl : List Nat) (cmd : Nat)
    (hset : SetSerialMessageChannel K c ch = .ok c1)
    (hcmd : cmd = K.SysExSerialDataV1 ∨ cmd = K.SysExSerialDataV2) :
    c1.sysExListenerChannels K.SysExSerialDataV2 = ch ∧
    handleSysEx K c1 (cmd :: tl) = (c1, some (.error .ErrUnsupportedFeature)) := by
  constructor
  · unfold SetSerialMessageChannel at hset
    dsimp only at hset
    split at hset
    · split at hset
      · cases hset
      · cases hset
        simp only [if_true]
    · cases hset
      simp only [if_true]
  · simp only [handleSysEx, hcmd, if_true]

theorem C17_serial_frames_unsupported_witness :
    { (makeChan NewClient).1 with sysExListenerChannels := fun k =>
        if k = sampleConsts.SysExSerialDataV2 then some 0
        else (makeChan NewClient).1.sysExListenerChannels k
      : Client }.sysExListenerChannels sampleConsts.SysExSerialDataV2 = some 0 ∧
    handleSysEx sampleConsts
      { (makeChan NewClient).1 with sysExListenerChannels := fun k =>
        if k = sampleConsts.SysExSerialDataV2 then some 0
        else (makeChan NewClient).1.sysExListenerChannels k }
      (0x67 :: [1, 2, 0xF7])
      = ({ (makeChan NewClient).1 with sysExListenerChannels := fun k =>
          if k = sampleConsts.SysExSerialDataV2 then some 0
          else (makeChan NewClient).1.sysExListenerChannels k },
        some (.error .ErrUnsupportedFeature)) :=
  C17_serial_frames_unsupported sampleConsts (makeChan NewClient).1 _ (some 0) [1, 2, 0xF7]
    0x67 rfl (Or.inr rfl)

/-- C17, counterexample: a caller makes a channel and installs it with
`SetSerialMessageChannel`; the reader then reads the serial-data frame
`F0 67 01 02 F7`. It terminates with `ErrUnsupportedFeature` and the channel has received
nothing. -/
theorem C17_serial_listener_never_served :
    ∃ c : Client,
      SetSerialMessageChannel sampleConsts (makeChan NewClient).1 (some 0) = .ok c ∧
      c.sysExListenerChannels sampleConsts.SysExSerialDataV2 = some 0 ∧
      responseWatcher sampleConsts c [(0xF0, [0x67, 0x01, 0x02, 0xF7])] .EOF
        = some (c, .error .ErrUnsupportedFeature) ∧
      c.chans[0]? = some { sent := [], closed := false } :=
  ⟨_, rfl, rfl, rfl, rfl⟩

/-- The I2C arm of the dispatch on a client value whose `i2cListeners` map is initialised
and holds the open channel `ch` for the address `TwoByteToByte(a0, a1)` (no call of the
package produces such a value, see `ApiReachable`): what is sent, the send being taken as
completed, is the decoding of `data[3:]`, which still ends with the end marker `e`. -/
theorem handleSysEx_i2c_arm (K : Consts) (c : Client)
    (m : Nat → Option (Option Nat)) (a0 a1 ch e : Nat) (x : Chan) (ds : List Nat)
    (h1 : K.SysExI2CReply ≠ K.SysExSerialDataV1) (h2 : K.SysExI2CReply ≠ K.SysExSerialDataV2)
    (hm : c.i2cListeners = some m) (hl : m (TwoByteToByte a0 a1) = some (some ch))
    (hx : c.chans[ch]? = some x) (ho : x.closed = false) :
    handleSysEx K c (K.SysExI2CReply :: a0 :: a1 :: (ds ++ [e])) =
      ({ c with chans := (c.chans.set ch
          { x with sent := x.sent ++ [TwoByteRepresentationToByteSlice (ds ++ [e])] }) },
        none) ∧
    (ds.length % 2 = 0 →
      (TwoByteRepresentationToByteSlice (ds ++ [e])).length
        = (TwoByteRepresentationToByteSlice ds).length + 1) ∧
    TwoByteRepresentationToByteSlice ([] ++ [e]) = [TwoByteToByte e 0] := by
  refine ⟨?_, ?_, rfl⟩
  · have hs := chanSend_ok c.chans ch (TwoByteRepresentationToByteSlice (ds ++ [e])) x hx ho
    simp only [handleSysEx, h1, h2, or_self, if_false, if_true, List.getElem?_cons_succ,
      List.getElem?_cons_zero, hm, Option.bind, hl, List.drop_succ_cons, List.drop_zero, hs]
  · intro hev
    have hodd : (ds ++ [e]).length % 2 = 1 := by
      simp only [List.length_append, List.length_singleton]; omega
    have hev1 : ¬ ds.length % 2 = 1 := by omega
    unfold TwoByteRepresentationToByteSlice
    rw [if_pos hodd, if_neg hev1, combinePairs_length, combinePairs_length]
    simp only [List.length_append, List.length_singleton]
    omega

/-- C19 (evaluation of the code): the pass over the I2C reply frame `[I2C-reply, e]`, which
has no address bytes before the end marker `e`, ends with an index-out-of-range panic;
so do the pin-state decoder on a one-byte payload, the firmware decoder on a one-byte
payload, and the capability decoder on a payload that ends with a mode byte. -/
theorem C19_short_payloads_panic (K : Consts) (c : Client) (e pin major mode : Nat)
    (h1 : K.SysExI2CReply ≠ K.SysExSerialDataV1) (h2 : K.SysExI2CReply ≠ K.SysExSerialDataV2)
    (hmode : mode ≠ 0x7F) :
    handleSysEx K c [K.SysExI2CReply, e] = (c, some .indexOutOfRange) ∧
    parsePinStateQuery [pin] = .error .indexOutOfRange ∧
    parseReportFirmware [major] = .error .indexOutOfRange ∧
    parseCapabilityCommand [mode] = .error .indexOutOfRange := by
  refine ⟨?_, rfl, rfl, ?_⟩
  · simp [handleSysEx, h1, h2]
  · have hd : mode ≠ CapabilityResponsePinDelimiter := hmode
    simp only [parseCapabilityCommand, capabilityLoop, hd, if_false]

theorem C19_short_payloads_panic_witness :
    handleSysEx sampleConsts NewClient [sampleConsts.SysExI2CReply, 0xF7]
      = (NewClient, some .indexOutOfRange) ∧
    parsePinStateQuery [17] = .error .indexOutOfRange ∧
    parseReportFirmware [2] = .error .indexOutOfRange ∧
    parseCapabilityCommand [1] = .error .indexOutOfRange :=
  C19_short_payloads_panic sampleConsts NewClient 0xF7 17 2 1 (by decide) (by decide)
    (by decide)

/-! ## The reader on the byte stream -/

theorem splitDelim_spec (delim : Nat) (buf : List Nat) :
    ∀ pre rest : List Nat, splitDelim delim buf = some (pre, rest) →
      pre ≠ [] ∧ pre ++ rest = buf := by
  induction buf with
  | nil => intro pre rest h; cases h
  | cons b tl ih =>
    intro pre rest h
    simp only [splitDelim] at h
    split at h
    · cases h
      exact ⟨by simp, rfl⟩
    · cases hs : splitDelim delim tl with
      | none => rw [hs] at h; cases h
      | some q =>
        rw [hs] at h
        cases h
        obtain ⟨_, e⟩ := ih q.1 q.2 (by rw [hs])
        exact ⟨by simp, by rw [List.cons_append, e]⟩

theorem splitDelim_none (delim : Nat) (buf : List Nat) (h : delim ∉ buf) :
    splitDelim delim buf = none := by
  induction buf with
  | nil => rfl
  | cons b tl ih =>
    have hb : ¬ b = delim := fun e => h (by rw [e]; exact List.mem_cons_self _ _)
    simp only [splitDelim, hb, if_false, ih (fun hm => h (List.mem_cons_of_mem _ hm)),
      Option.map_none']

theorem readBytesLoop_ok (delim : Nat) (final : BoardErr) (chunks : List (Nat × List Nat)) :
    ∀ (acc buf data : List Nat) (r : Reader),
      readBytesLoop delim final chunks acc buf = .ok (data, r) →
      data ≠ [] ∧ r.final = final ∧
      r.pending.length ≤ (buf ++ chunks.flatMap (fun p => p.1 :: p.2)).length := by
  induction chunks with
  | nil =>
    intro acc buf data r h
    simp only [readBytesLoop] at h
    cases hs : splitDelim delim buf with
    | none => rw [hs] at h; cases h
    | some q =>
      rw [hs] at h
      cases h
      obtain ⟨hne, e⟩ := splitDelim_spec delim buf q.1 q.2 (by rw [hs])
      refine ⟨by simp [hne], rfl, ?_⟩
      simp only [Reader.pending, List.flatMap_nil, List.append_nil, ← e, List.length_append]
      omega
  | cons ch cs ih =>
    intro acc buf data r h
    obtain ⟨hd, tl⟩ := ch
    simp only [readBytesLoop] at h
    cases hs : splitDelim delim buf with
    | none =>
      rw [hs] at h
      obtain ⟨a, b, c⟩ := ih (acc ++ buf) (hd :: tl) data r h
      refine ⟨a, b, ?_⟩
      simp only [List.flatMap_cons, List.length_append, List.length_cons] at c ⊢
      omega
    | some q =>
      rw [hs] at h
      cases h
      obtain ⟨hne, e⟩ := splitDelim_spec delim buf q.1 q.2 (by rw [hs])
      refine ⟨by simp [hne], rfl, ?_⟩
      simp only [Reader.pending, ← e, List.length_append]
      omega

theorem readBytesLoop_error (delim : Nat) (final : BoardErr) (chunks : List (Nat × List Nat)) :
    ∀ acc buf : List Nat, delim ∉ buf ++ chunks.flatMap (fun p => p.1 :: p.2) →
      readBytesLoop delim final chunks acc buf = .error final := by
  induction chunks with
  | nil =>
    intro acc buf h
    simp only [List.flatMap_nil, List.append_nil] at h
    simp only [readBytesLoop, splitDelim_none delim buf h]
  | cons ch cs ih =>
    intro acc buf h
    obtain ⟨hd, tl⟩ := ch
    simp only [List.flatMap_cons, List.mem_append, not_or] at h
    simp only [readBytesLoop, splitDelim_none delim buf h.1]
    apply ih
    simp only [List.mem_append, not_or]
    exact h.2

theorem ReadBytes_error (r : Reader) (delim : Nat) (h : delim ∉ r.pending) :
    r.ReadBytes delim = .error r.final :=
  readBytesLoop_error delim r.final r.chunks [] r.buf h

theorem pending_nil (r : Reader) (h : r.pending = []) : r.buf = [] ∧ r.chunks = [] := by
  simp only [Reader.pending, List.append_eq_nil] at h
  refine ⟨h.1, ?_⟩
  cases hc : r.chunks with
  | nil => rfl
  | cons ch cs =>
    rw [hc] at h
    simp at h

theorem ReadByte_nil (r : Reader) (h : r.pending = []) : r.ReadByte = .error r.final := by
  obtain ⟨hb, hc⟩ := pending_nil r h
  simp only [Reader.ReadByte, hb, hc]

theorem Read_nil (r : Reader) (n : Nat) (h : r.pending = []) : r.Read n = .error r.final := by
  obtain ⟨hb, hc⟩ := pending_nil r h
  simp only [Reader.Read, hb, hc]

theorem ReadByte_cons (r : Reader) (b : Nat) (rest : List Nat) (h : r.pending = b :: rest) :
    ∃ r1, r.ReadByte = .ok (b, r1) ∧ r1.pending = rest ∧ r1.final = r.final := by
  cases hb : r.buf with
  | cons x tl =>
    simp only [Reader.pending, hb, List.cons_append, List.cons.injEq] at h
    refine ⟨{ r with buf := tl }, ?_, h.2, rfl⟩
    simp only [Reader.ReadByte, hb, h.1]
  | nil =>
    cases hc : r.chunks with
    | nil => simp [Reader.pending, hb, hc] at h
    | cons ch cs =>
      obtain ⟨hd, tl⟩ := ch
      simp only [Reader.pending, hb, hc, List.nil_append, List.flatMap_cons, List.cons_append,
        List.cons.injEq] at h
      refine ⟨{ r with buf := tl, chunks := cs }, ?_, h.2, rfl⟩
      simp only [Reader.ReadByte, hb, hc, h.1]

theorem ReadByte_ok (r r1 : Reader) (b : Nat) (h : r.ReadByte = .ok (b, r1)) :
    r1.pending.length + 1 = r.pending.length := by
  cases hp : r.pending with
  | nil => rw [ReadByte_nil r hp] at h; cases h
  | cons x rest =>
    obtain ⟨r2, e, hp2, _⟩ := ReadByte_cons r x rest hp
    rw [e] at h
    cases h
    rw [hp2]
    rfl

theorem Read_ok (r r2 : Reader) (n : Nat) (got : List Nat) (h : r.Read n = .ok (got, r2)) :
    r2.pending.length ≤ r.pending.length := by
  unfold Reader.Read at h
  split at h
  · rename_i hb
    split at h
    · rename_i hd tl cs hc
      cases h
      simp only [Reader.pending, hb, hc, List.nil_append, List.flatMap_cons, List.length_append,
        List.length_drop, List.length_cons]
      omega
    · cases h
  · rename_i b rest hb
    cases h
    simp only [Reader.pending, hb, List.length_append, List.length_drop, List.length_cons]
    omega

theorem ReadBytes_ok (r r2 : Reader) (delim : Nat) (data : List Nat)
    (h : r.ReadBytes delim = .ok (data, r2)) :
    data ≠ [] ∧ r2.pending.length ≤ r.pending.length := by
  obtain ⟨a, _, c⟩ := readBytesLoop_ok delim r.final r.chunks [] r.buf data r2 h
  exact ⟨a, c⟩

/-- With more passes allowed than there are bytes to read, the loop of `responseWatcher`
ends. -/
theorem watchLoop_isSome (K : Consts) (fuel : Nat) :
    ∀ (c : Client) (r : Reader), r.pending.length < fuel →
      ∃ res, watchLoop K fuel c r = some res := by
  induction fuel with
  | zero => intro c r h; omega
  | succ n ih =>
    intro c r h
    unfold watchLoop
    cases hb : r.ReadByte with
    | error e => exact ⟨_, rfl⟩
    | ok p =>
      obtain ⟨b0, r1⟩ := p
      have h1 := ReadByte_ok r r1 b0 hb
      dsimp only
      split
      · cases hr : r1.Read 2 with
        | error e => exact ⟨_, rfl⟩
        | ok q =>
          obtain ⟨got, r2⟩ := q
          have h2 := Read_ok r1 r2 2 got hr
          exact ih c r2 (by omega)
      · split
        · cases hr : r1.ReadBytes (K.EndSysEx % 256) with
          | error e => exact ⟨_, rfl⟩
          | ok q =>
            obtain ⟨data, r2⟩ := q
            have h2 := (ReadBytes_ok r1 r2 _ data hr).2
            dsimp only
            cases hd : handleSysEx K c data with
            | mk c1 o =>
              cases o with
              | some f => exact ⟨_, rfl⟩
              | none => exact ih c1 r2 (by omega)
        · exact ⟨_, rfl⟩

/-- The frame reader terminates on every input. -/
theorem responseWatcher_terminates (K : Consts) (c : Client) (chunks : List (Nat × List Nat))
    (final : BoardErr) : ∃ res, responseWatcher K c chunks final = some res := by
  obtain ⟨res, h⟩ := watchLoop_isSome K ((NewReader chunks final).pending.length + 1) c
    (NewReader chunks final) (Nat.lt_succ_self _)
  refine ⟨(res.1, deferred res.2), ?_⟩
  simp only [responseWatcher, responseWatcherFrom, h, Option.map_some']

theorem chanSend_error (chans : List Chan) (ch : Nat) (v : List Nat) (f : Fault)
    (h : chanSend chans ch v = .error f) : f = .blocked ∨ f = .sendOnClosed := by
  unfold chanSend at h
  split at h
  · cases h; exact Or.inl rfl
  · split at h
    · cases h; exact Or.inr rfl
    · cases h

theorem chanClose_error (chans : List Chan) (ch : Nat) (f : Fault)
    (h : chanClose chans ch = .error f) : f = .closeOfNil ∨ f = .closeOfClosed := by
  unfold chanClose at h
  split at h
  · cases h; exact Or.inl rfl
  · split at h
    · cases h; exact Or.inr rfl
    · cases h

/-- A pass over the bytes that `ReadBytes` returned never ends with `ErrNoDataRead`,
since those bytes include the end marker. -/
theorem handleSysEx_ne_nodata (K : Consts) (c : Client) (data : List Nat) (h : data ≠ []) :
    (handleSysEx K c data).2 ≠ some (.error .ErrNoDataRead) := by
  cases data with
  | nil => exact absurd rfl h
  | cons cmd tl =>
    unfold handleSysEx
    dsimp only
    split
    · simp
    · split
      · split
        · split
          · simp
          · simp
          · split
            · simp
            · rename_i f hs
              rcases chanSend_error _ _ _ _ hs with e | e <;> simp [e]
        · simp
      · split
        · split
          · simp
          · rename_i f hs
            rcases chanSend_error _ _ _ _ hs with e | e <;> simp [e]
        · split
          · split
            · simp
            · split
              · rename_i f hs
                rcases chanSend_error _ _ _ _ hs with e | e <;> simp [e]
              · split
                · rename_i f hs
                  rcases chanClose_error _ _ _ hs with e | e <;> simp [e]
                · simp
          · simp

theorem watchLoop_ne_nodata (K : Consts) (fuel : Nat) :
    ∀ (c c1 : Client) (r : Reader), watchLoop K fuel c r ≠ some (c1, .error .ErrNoDataRead) := by
  induction fuel with
  | zero => intro c c1 r h; cases h
  | succ n ih =>
    intro c c1 r
    unfold watchLoop
    cases hb : r.ReadByte with
    | error e => simp
    | ok p =>
      obtain ⟨b0, r1⟩ := p
      dsimp only
      split
      · cases hr : r1.Read 2 with
        | error e => simp
        | ok q => exact ih c c1 q.2
      · split
        · cases hr : r1.ReadBytes (K.EndSysEx % 256) with
          | error e => simp
          | ok q =>
            obtain ⟨data, r2⟩ := q
            have hne := handleSysEx_ne_nodata K c data (ReadBytes_ok r1 r2 _ data hr).1
            dsimp only
            cases hd : handleSysEx K c data with
            | mk c2 o =>
              rw [hd] at hne
              cases o with
              | some f =>
                intro e
                simp only [Option.some.injEq, Prod.mk.injEq] at e
                exact hne (by rw [e.2])
              | none => exact ih c2 c1 r2
        · simp

theorem deferred_ne_nodata (f : Fault) (h : deferred f = .error .ErrNoDataRead) :
    f = .error .ErrNoDataRead := by
  unfold deferred at h
  split at h
  · cases h
  · exact h

theorem deferred_board (e : BoardErr) :
    deferred (.error (.board e))
      = .error (if e = .EOF then .ErrDeviceDisconnected else .board e) := by
  cases e with
  | EOF => rfl
  | other n => rfl

theorem ReadBytes_at_end_marker (delim : Nat) (rest : List Nat)
    (chunks : List (Nat × List Nat)) (final : BoardErr) :
    Reader.ReadBytes { buf := delim :: rest, chunks := chunks, final := final } delim
      = .ok ([delim], { buf := rest, chunks := chunks, final := final }) := by
  cases chunks with
  | nil => simp [Reader.ReadBytes, readBytesLoop, splitDelim]
  | cons ch cs => simp [Reader.ReadBytes, readBytesLoop, splitDelim]

/-- C16 (evaluation of the code): when the end marker directly follows the start marker,
`ReadBytes` returns the one-byte slice holding the end marker, so the length check does
not fire; the frame reader never terminates with `ErrNoDataRead`, on any input and from
any client state; on a new client the bytes `F0 F7` make it terminate with
`ErrUnexpectedSysExMessageTypeReceived`. -/
theorem C16_no_data_error_unreachable :
    (∀ (K : Consts) (rest : List Nat) (chunks : List (Nat × List Nat)) (final : BoardErr),
      Reader.ReadBytes { buf := (K.EndSysEx % 256) :: rest, chunks := chunks, final := final }
          (K.EndSysEx % 256)
        = .ok ([K.EndSysEx % 256], { buf := rest, chunks := chunks, final := final })) ∧
    (∀ (K : Consts) (c c1 : Client) (chunks : List (Nat × List Nat)) (final : BoardErr),
      responseWatcher K c chunks final ≠ some (c1, .error .ErrNoDataRead)) ∧
    responseWatcher sampleConsts NewClient [(0xF0, [0xF7])] .EOF
      = some (NewClient, .error .ErrUnexpectedSysExMessageTypeReceived) := by
  refine ⟨fun K rest chunks final => ReadBytes_at_end_marker _ rest chunks final, ?_, rfl⟩
  intro K c c1 chunks final h
  simp only [responseWatcher, responseWatcherFrom, Option.map_eq_some'] at h
  obtain ⟨p, hp, e⟩ := h
  simp only [Prod.mk.injEq] at e
  have := deferred_ne_nodata p.2 e.2
  exact watchLoop_ne_nodata K _ c p.1 _ (by rw [hp, ← this])

theorem Read_single (r : Reader) (x : Nat) (h : r.pending = [x]) :
    ∃ got r2, r.Read 2 = .ok (got, r2) ∧ r2.pending = [] ∧ r2.final = r.final := by
  cases hb : r.buf with
  | cons y tl =>
    simp only [Reader.pending, hb, List.cons_append, List.cons.injEq,
      List.append_eq_nil] at h
    obtain ⟨_, htl, hc⟩ := h
    subst htl
    refine ⟨[y], { r with buf := [] }, ?_, ?_, rfl⟩
    · simp only [Reader.Read, hb]
      rfl
    · simp only [Reader.pending, hc]
      rfl
  | nil =>
    cases hc : r.chunks with
    | nil => simp [Reader.pending, hb, hc] at h
    | cons ch cs =>
      obtain ⟨hd, tl⟩ := ch
      simp only [Reader.pending, hb, hc, List.nil_append, List.flatMap_cons, List.cons_append,
        List.cons.injEq, List.append_eq_nil] at h
      obtain ⟨_, htl, hcs⟩ := h
      subst htl
      refine ⟨[hd], { r with buf := [], chunks := cs }, ?_, ?_, rfl⟩
      · simp only [Reader.Read, hb, hc]
        rfl
      · simp only [Reader.pending, hcs]
        rfl

/-- C18 (as the code does it): when a read on the transport fails while the reader waits
for a leading byte, for the protocol-version bytes (none or one of the two having
arrived), or for the rest of a SysEx frame, the frame reader terminates, the client being
as it was; the error it reports is `ErrDeviceDisconnected` when the read failed with
end-of-stream, and the error of the transport itself, unchanged, when it failed with
anything else. -/
theorem C18_read_failure (K : Consts) (c : Client) (r : Reader) (fuel x : Nat)
    (body : List Nat) (hne : K.StartSysEx ≠ K.ProtocolVersion)
    (hcase : r.pending = [] ∨ r.pending = [K.ProtocolVersion] ∨
      r.pending = [K.ProtocolVersion, x] ∨
      (r.pending = K.StartSysEx :: body ∧ K.EndSysEx % 256 ∉ body)) :
    responseWatcherFrom K (fuel + 2) c r
      = some (c, .error (if r.final = .EOF then .ErrDeviceDisconnected else .board r.final)) := by
  have key : watchLoop K (fuel + 2) c r = some (c, .error (.board r.final)) := by
    rcases hcase with h | h | h | ⟨h, hb⟩
    · simp only [watchLoop, ReadByte_nil r h]
    · obtain ⟨r1, e1, hp1, hf1⟩ := ReadByte_cons r _ _ h
      simp only [watchLoop, e1, if_true, Read_nil r1 2 hp1, hf1]
    · obtain ⟨r1, e1, hp1, hf1⟩ := ReadByte_cons r _ _ h
      obtain ⟨got, r2, e2, hp2, hf2⟩ := Read_single r1 x hp1
      simp only [watchLoop, e1, if_true, e2, ReadByte_nil r2 hp2, hf2, hf1]
    · obtain ⟨r1, e1, hp1, hf1⟩ := ReadByte_cons r _ _ h
      have hb1 : K.EndSysEx % 256 ∉ r1.pending := by rw [hp1]; exact hb
      simp only [watchLoop, e1, hne, if_false, if_true, ReadBytes_error r1 _ hb1, hf1]
  simp only [responseWatcherFrom, key, Option.map_some', deferred_board]

theorem C18_read_failure_witness :
    responseWatcherFrom sampleConsts (0 + 2) demoQueried
        { buf := [0xF0, 0x6C], chunks := [(1, [2])], final := .other 5 }
      = some (demoQueried, .error
          (if ({ buf := [0xF0, 0x6C], chunks := [(1, [2])], final := .other 5 } : Reader).final
              = .EOF
            then .ErrDeviceDisconnected
            else .board
              ({ buf := [0xF0, 0x6C], chunks := [(1, [2])], final := .other 5 } : Reader).final)) :=
  C18_read_failure sampleConsts demoQueried
    { buf := [0xF0, 0x6C], chunks := [(1, [2])], final := .other 5 } 0 0 [0x6C, 1, 2]
    (by decide) (Or.inr (Or.inr (Or.inr ⟨rfl, by decide⟩)))

/-- C18, counterexample: the transport fails with an error other than end-of-stream, at
the first read and in the middle of a SysEx frame; the frame reader reports that error,
not `ErrDeviceDisconnected`. -/
theorem C18_other_read_error_not_mapped :
    responseWatcher sampleConsts NewClient [] (.other 5)
      = some (NewClient, .error (.board (.other 5))) ∧
    responseWatcher sampleConsts NewClient [(0xF0, [0x6C, 1])] (.other 5)
      = some (NewClient, .error (.board (.other 5))) ∧
    Fault.error (.board (.other 5)) ≠ Fault.error .ErrDeviceDisconnected :=
  ⟨rfl, rfl, by decide⟩

/-! ## I2C replies on the states the package can produce -/

theorem SetI2CMessageChannel_nil (c : Client) (address : Nat) (ch : Option Nat)
    (h : c.i2cListeners = none) :
    SetI2CMessageChannel c address ch = .error .nilMapWrite := by
  simp only [SetI2CMessageChannel, h, Option.bind, Option.join]

theorem handleSysEx_i2cListeners (K : Consts) (c : Client) (data : List Nat) :
    (handleSysEx K c data).1.i2cListeners = c.i2cListeners := by
  cases data with
  | nil => rfl
  | cons cmd tl =>
    unfold handleSysEx
    dsimp only
    split
    · rfl
    · split
      · split
        · split
          · rfl
          · rfl
          · split <;> rfl
        · rfl
      · split
        · split <;> rfl
        · split
          · split
            · rfl
            · split
              · rfl
              · split <;> rfl
          · rfl

theorem SendSysEx_i2cListeners (K : Consts) (c : Client) (cmd : Nat) (p : List Nat)
    (werr : Option BoardErr) :
    (SendSysEx K c cmd p werr).1.i2cListeners = c.i2cListeners := by
  cases werr with
  | some e => rfl
  | none =>
    simp only [SendSysEx, write]
    cases commandResponseMap K cmd <;> rfl

theorem SetSerialMessageChannel_i2cListeners (K : Consts) (c c1 : Client) (ch : Option Nat)
    (h : SetSerialMessageChannel K c ch = .ok c1) : c1.i2cListeners = c.i2cListeners := by
  unfold SetSerialMessageChannel at h
  dsimp only at h
  split at h
  · split at h
    · cases h
    · cases h; rfl
  · cases h; rfl

/-- No call of the package initialises the `i2cListeners` map. -/
theorem ApiReachable_i2c_nil (K : Consts) (c : Client) (h : ApiReachable K c) :
    c.i2cListeners = none := by
  induction h with
  | init => rfl
  | make _ ih => exact ih
  | start _ ih =>
    rename_i c0 _
    have : (Start K c0).1.i2cListeners = c0.i2cListeners := by
      unfold Start
      split <;> rfl
    rw [this]; exact ih
  | close _ ih => exact ih
  | send cmd p werr _ ih => rw [SendSysEx_i2cListeners]; exact ih
  | wrote p werr _ ih =>
    rw [write_board]; exact ih
  | extended pin value werr _ ih =>
    rename_i c0 _
    have : (ExtendedReportAnalogPin K c0 pin value werr).1.i2cListeners
        = c0.i2cListeners := by
      unfold ExtendedReportAnalogPin
      split
      · rfl
      · dsimp only
        split <;> exact SendSysEx_i2cListeners K c0 _ _ werr
    rw [this]; exact ih
  | serial ch _ hs ih => rw [SetSerialMessageChannel_i2cListeners K _ _ ch hs]; exact ih
  | i2c address ch _ hs ih =>
    rw [SetI2CMessageChannel_nil _ address ch ih] at hs
    cases hs
  | dispatch data _ ih => rw [handleSysEx_i2cListeners]; exact ih

theorem handleSysEx_i2c_nil (K : Consts) (c : Client) (a0 a1 : Nat) (tl : List Nat)
    (h1 : K.SysExI2CReply ≠ K.SysExSerialDataV1) (h2 : K.SysExI2CReply ≠ K.SysExSerialDataV2)
    (h : c.i2cListeners = none) :
    handleSysEx K c (K.SysExI2CReply :: a0 :: a1 :: tl)
      = (c, some (.error .ErrNoI2CListenerForAddress)) := by
  simp [handleSysEx, h1, h2, h]

theorem splitDelim_prefix (delim : Nat) (pre rest : List Nat) (h : delim ∉ pre) :
    splitDelim delim (pre ++ delim :: rest) = some (pre ++ [delim], rest) := by
  induction pre with
  | nil => simp [splitDelim]
  | cons b tl ih =>
    have hb : ¬ b = delim := fun e => h (by rw [e]; exact List.mem_cons_self _ _)
    have e := ih (fun hm => h (List.mem_cons_of_mem _ hm))
    show splitDelim delim (b :: (tl ++ delim :: rest)) = some (b :: (tl ++ [delim]), rest)
    simp only [splitDelim, hb, if_false, e, Option.map_some']

theorem ReadBytes_frame (delim : Nat) (pre rest : List Nat) (chunks : List (Nat × List Nat))
    (final : BoardErr) (h : delim ∉ pre) :
    Reader.ReadBytes { buf := pre ++ delim :: rest, chunks := chunks, final := final } delim
      = .ok (pre ++ [delim], { buf := rest, chunks := chunks, final := final }) := by
  cases chunks with
  | nil => simp [Reader.ReadBytes, readBytesLoop, splitDelim_prefix delim pre rest h]
  | cons ch cs => simp [Reader.ReadBytes, readBytesLoop, splitDelim_prefix delim pre rest h]

/-- C14 (evaluation of the code): in every client state that calls of the package can
produce, the `i2cListeners` map is nil: `SetI2CMessageChannel` panics for every address and
sink (the defect of C15), so no listener is ever registered. Hence for every I2C reply
frame `[SysEx-start, I2C-reply, a0, a1, ds..., SysEx-end]` that the frame reader reads, it
terminates with `ErrNoI2CListenerForAddress` and the client is as it was: nothing is
delivered to any channel. -/
theorem C14_i2c_reply_never_delivered (K : Consts) (c : Client) (a0 a1 fuel : Nat)
    (ds rest : List Nat) (chunks : List (Nat × List Nat)) (final : BoardErr)
    (hr : ApiReachable K c)
    (h1 : K.SysExI2CReply ≠ K.SysExSerialDataV1) (h2 : K.SysExI2CReply ≠ K.SysExSerialDataV2)
    (hne : K.StartSysEx ≠ K.ProtocolVersion)
    (hend : K.EndSysEx % 256 ∉ K.SysExI2CReply :: a0 :: a1 :: ds) :
    c.i2cListeners = none ∧
    (∀ (address : Nat) (sink : Option Nat),
      SetI2CMessageChannel c address sink = .error .nilMapWrite) ∧
    handleSysEx K c (K.SysExI2CReply :: a0 :: a1 :: (ds ++ [K.EndSysEx % 256]))
      = (c, some (.error .ErrNoI2CListenerForAddress)) ∧
    responseWatcherFrom K (fuel + 1) c
        { buf := K.StartSysEx :: K.SysExI2CReply :: a0 :: a1 ::
            (ds ++ (K.EndSysEx % 256) :: rest),
          chunks := chunks, final := final }
      = some (c, .error .ErrNoI2CListenerForAddress) := by
  have hnil := ApiReachable_i2c_nil K c hr
  have hd := handleSysEx_i2c_nil K c a0 a1 (ds ++ [K.EndSysEx % 256]) h1 h2 hnil
  refine ⟨hnil, fun address sink => SetI2CMessageChannel_nil c address sink hnil, hd, ?_⟩
  have hb := ReadBytes_frame (K.EndSysEx % 256) (K.SysExI2CReply :: a0 :: a1 :: ds) rest
    chunks final hend
  simp only [List.cons_append] at hb
  simp only [responseWatcherFrom, watchLoop, Reader.ReadByte, hne, if_false, if_true, hb, hd,
    Option.map_some']
  rfl

theorem C14_i2c_reply_never_delivered_witness :
    demoStarted.i2cListeners = none ∧
    (∀ (address : Nat) (sink : Option Nat),
      SetI2CMessageChannel demoStarted address sink = .error .nilMapWrite) ∧
    handleSysEx sampleConsts demoStarted
        (sampleConsts.SysExI2CReply :: 0x20 :: 0x00 :: ([0x01, 0x00] ++ [sampleConsts.EndSysEx % 256]))
      = (demoStarted, some (.error .ErrNoI2CListenerForAddress)) ∧
    responseWatcherFrom sampleConsts (0 + 1) demoStarted
        { buf := sampleConsts.StartSysEx :: sampleConsts.SysExI2CReply :: 0x20 :: 0x00 ::
            ([0x01, 0x00] ++ (sampleConsts.EndSysEx % 256) :: []),
          chunks := [], final := .EOF }
      = some (demoStarted, .error .ErrNoI2CListenerForAddress) :=
  C14_i2c_reply_never_delivered sampleConsts demoStarted 0x20 0x00 0 [0x01, 0x00] [] []
    .EOF (ApiReachable.start (ApiReachable.make ApiReachable.init))
    (by decide) (by decide) (by decide) (by decide)

end Firmata
